import Mathlib

/-!
Verification of the daily-idea pipeline (`scripts/daily_idea.py`,
`scripts/backfill.py`, `scripts/util_env.py`).

The Python code is shallowly embedded: strings are Lean `String`s processed
as `List Char`, the process environment and the on-disk files are explicit
state, network calls are oracles passed in as functions, and Python's
`random` module is an abstract deterministic generator (a seed function plus
an indexChooser) threaded as explicit state.  All definitions are executable
and structural so that concrete runs evaluate by `decide` / `rfl`.
-/

namespace Heartbeat

/-! ### Basic character / string helpers (ASCII fragment of Python's str ops) -/

/-- Python `\s` / `str.strip` whitespace (ASCII fragment). -/
def isWs (c : Char) : Bool :=
  c = ' ' || c = '\t' || c = '\n' || c = '\r' || c = '\x0b' || c = '\x0c'

def isDigit (c : Char) : Bool := '0' ≤ c && c ≤ '9'

/-- Characters in the class `[a-z0-9]`. -/
def isAlnumLow (c : Char) : Bool := ('a' ≤ c && c ≤ 'z') || isDigit c

/-- Characters in the class `[a-z0-9-]` (the class kept by `slugify` and `clean_tags`). -/
def isTagChar (c : Char) : Bool := isAlnumLow c || c = '-'

/-- Python `str.lower` on ASCII letters. -/
def pyLowerChar (c : Char) : Char :=
  if 'A' ≤ c && c ≤ 'Z' then Char.ofNat (c.toNat + 32) else c

def pyLower (s : String) : String := String.mk (s.data.map pyLowerChar)

/-- Python `str.strip()` (no argument): drop whitespace from both ends. -/
def pyStrip (s : String) : String :=
  String.mk (((s.data.dropWhile isWs).reverse.dropWhile isWs).reverse)

/-- Python `str.rstrip(chars)`: drop the given characters from the right end. -/
def pyRstrip (s : String) (chars : List Char) : String :=
  String.mk ((s.data.reverse.dropWhile (fun c => chars.contains c)).reverse)

/-- Python `str.strip(chars)` for a single character class. -/
def pyStripChar (ch : Char) (s : String) : String :=
  String.mk (((s.data.dropWhile (· = ch)).reverse.dropWhile (· = ch)).reverse)

/-- Substring test on character lists (Python's `needle in hay`). -/
def containsL (needle : List Char) : List Char → Bool
  | [] => needle.isEmpty
  | c :: t => needle.isPrefixOf (c :: t) || containsL needle t

/-- Python `needle in hay` for strings. -/
def strContains (hay needle : String) : Bool := containsL needle.data hay.data

/-- Python `"sep".join(l)` (modelled as the left fold the join performs). -/
def pyJoin (sep : String) : List String → String
  | [] => ""
  | x :: xs => xs.foldl (fun a b => a ++ sep ++ b) x

/-- Model of `re.split(r"\s+", s)`: pieces between maximal whitespace runs
(including the empty first/last piece when the string starts/ends with
whitespace, as `re.split` produces). The accumulator holds the current piece
reversed; the flag records whether we are inside a whitespace run. -/
def splitWsM : List Char → List Char → Bool → List String
  | [], acc, _ => [String.mk acc.reverse]
  | c :: cs, acc, skipping =>
    if isWs c then
      if skipping then splitWsM cs acc true
      else String.mk acc.reverse :: splitWsM cs [] true
    else splitWsM cs (c :: acc) false

def reSplitWs (s : String) : List String := splitWsM s.data [] false

/-- Model of Python `str.splitlines()` restricted to `\n` separators:
no trailing empty line when the string ends with a newline, `[]` on `""`. -/
def splitLinesA : List Char → List Char → List String
  | [], acc => [String.mk acc.reverse]
  | c :: cs, acc =>
    if c = '\n' then
      String.mk acc.reverse :: (if cs.isEmpty then [] else splitLinesA cs [])
    else splitLinesA cs (c :: acc)

def splitLines (s : String) : List String :=
  if s.data.isEmpty then [] else splitLinesA s.data []

/-- Number of maximal non-whitespace runs in a string ("word count").
The flag records whether the previous character belonged to a word. -/
def wcAux : List Char → Bool → Nat
  | [], _ => 0
  | c :: cs, inWord =>
    if isWs c then wcAux cs false
    else (if inWord then 0 else 1) + wcAux cs true

def wordCount (s : String) : Nat := wcAux s.data false

def digitChar (n : Nat) : Char := Char.ofNat (48 + n)

/-- Decimal rendering of a natural number (Python `str(n)` / `%d`). -/
def natStrAux : Nat → Nat → List Char
  | 0, _ => []
  | fuel + 1, n => if n < 10 then [digitChar n] else natStrAux fuel (n / 10) ++ [digitChar (n % 10)]

def natStr (n : Nat) : String := String.mk (natStrAux (n + 1) n)

/-! ### `limit_words` (daily_idea.py lines 51-55) -/

/-- `limit_words`: split the stripped text on whitespace runs; if at most
`max_words` words, rejoin them; otherwise keep the first `max_words` words
and right-strip trailing `,.;:!?`. -/
def limit_words (text : String) (maxWords : Nat) : String :=
  let words := reSplitWs (pyStrip text)
  if words.length ≤ maxWords then pyJoin " " words
  else pyRstrip (pyJoin " " (words.take maxWords)) [',', '.', ';', ':', '!', '?']

/-! ### `re.sub` models used by `clean_tags` and `slugify` -/

/-- Model of `re.sub(r"[^a-z0-9\-]+", "-", s)`: each maximal run of
characters outside `[a-z0-9-]` becomes a single `-`.  The flag records
whether we are inside such a run. -/
def subNonTagAux : List Char → Bool → List Char
  | [], _ => []
  | c :: cs, inRun =>
    if isTagChar c then c :: subNonTagAux cs false
    else if inRun then subNonTagAux cs true
    else '-' :: subNonTagAux cs true

def subNonTag (l : List Char) : List Char := subNonTagAux l false

/-- Model of `re.sub(r"-+", "-", s)`: collapse each run of hyphens to one. -/
def collapseDashAux : List Char → Bool → List Char
  | [], _ => []
  | c :: cs, prevDash =>
    if c = '-' then
      (if prevDash then collapseDashAux cs true else '-' :: collapseDashAux cs true)
    else c :: collapseDashAux cs false

def collapseDash (l : List Char) : List Char := collapseDashAux l false

/-- Model of `re.sub(r"[^a-z0-9]+", "-", s)`: each maximal run of characters
outside `[a-z0-9]` (hyphens included) becomes a single `-`.  Used to state
the amended description of `slugify`. -/
def subNonAlnumAux : List Char → Bool → List Char
  | [], _ => []
  | c :: cs, inRun =>
    if isAlnumLow c then c :: subNonAlnumAux cs false
    else if inRun then subNonAlnumAux cs true
    else '-' :: subNonAlnumAux cs true

def subNonAlnum (l : List Char) : List Char := subNonAlnumAux l false

/-! ### `slugify` (daily_idea.py lines 71-75) -/

/-- `slugify`: lowercase, replace runs outside `[a-z0-9-]` by `-`, collapse
hyphen runs (`re.sub(r"-+", "-")`), and strip hyphens from both ends. -/
def slugify (name : String) : String :=
  pyStripChar '-' (String.mk (collapseDash (subNonTag (pyLower name).data)))

/-- Modelled from the spec's words for the normalization step ("lowercase,
replace runs of non `[a-z0-9-]` with `-`, trim leading/trailing `-`"): note
the spec's description has no hyphen-run collapsing. Used only to compare
the spec's description of `slugify` with the source's `slugify`. -/
def slugifySpec (name : String) : String :=
  pyStripChar '-' (String.mk (subNonTag (pyLower name).data))

/-! ### `clean_tags` (daily_idea.py lines 58-68) -/

/-- The per-tag sanitization step of `clean_tags`:
`re.sub(r"[^a-z0-9\-]+", "-", t.lower()).strip("-")`. -/
def sanitizeTag (t : String) : String :=
  pyStripChar '-' (String.mk (subNonTag (pyLower t).data))

/-- Loop of `clean_tags`: `out` is kept reversed; a sanitized tag is appended
when nonempty and not yet seen; the loop stops once `out` reaches `maxTags`. -/
def cleanTagsGo (maxTags : Nat) : List String → List String → List String
  | [], out => out.reverse
  | t :: ts, out =>
    let t2 := sanitizeTag t
    let out2 := if t2 ≠ "" && !(out.contains t2) then t2 :: out else out
    if maxTags ≤ out2.length then out2.reverse else cleanTagsGo maxTags ts out2

def clean_tags (tags : List String) (maxTags : Nat) : List String :=
  cleanTagsGo maxTags tags []

/-! ### `THEMES` and `day_theme` (daily_idea.py lines 35-48) -/

def THEMES : List String :=
  ["security", "data", "devtools", "automation", "observability", "productivity", "ml"]

structure Date where
  year : Nat
  month : Nat
  day : Nat
deriving Repr, DecidableEq

def isLeap (y : Nat) : Bool := (y % 4 = 0 && y % 100 ≠ 0) || y % 400 = 0

def daysInMonth (y m : Nat) : Nat :=
  if m = 2 then (if isLeap y then 29 else 28)
  else if m = 4 || m = 6 || m = 9 || m = 11 then 30
  else 31

/-- `timetuple().tm_yday`: day-of-year of a (valid) Gregorian date. -/
def dayOfYear (d : Date) : Nat :=
  (List.range (d.month - 1)).foldl (fun a i => a + daysInMonth d.year (i + 1)) 0 + d.day

/-- `day_theme`: deterministic rotation by day of year. -/
def day_theme (d : Date) : String :=
  THEMES.getD ((dayOfYear d - 1) % THEMES.length) ""

/-! ### Python's `random` module as an abstract deterministic generator

`random.seed(s)` resets the global Mersenne-Twister state as a pure function
of the seed string; `random.choice(seq)` picks `seq[i]` for an index `i`
drawn from the state (raising `IndexError` on an empty sequence).  We model
the generator abstractly: any state type `σ`, a seeding function and an
index drawer.  The `%` keeps the drawn index in range for arbitrary models;
CPython's `_randbelow` already guarantees `i < n`. -/

structure PyRandom (σ : Type) where
  seed : String → σ
  randIdx : σ → Nat → Nat × σ

def pickT {σ α : Type} (R : PyRandom σ) (st : σ) (l : List α) (h : 0 < l.length) :
    α × σ :=
  let p := R.randIdx st l.length
  (l.get ⟨p.1 % l.length, Nat.mod_lt p.1 h⟩, p.2)

/-- `random.choice`: `none` models the `IndexError` on an empty sequence. -/
def pyChoice {σ α : Type} (R : PyRandom σ) (st : σ) (l : List α) : Option (α × σ) :=
  if h : 0 < l.length then some (pickT R st l h) else none

/-! ### The offline provider (daily_idea.py lines 78-148) -/

structure Idea where
  title : String
  summary : String
  tags : List String
deriving Repr, DecidableEq

def adjectives : List String :=
  ["quantum", "minimal", "serverless", "edge", "ambient", "streaming", "fuzzy",
   "semantic", "temporal", "realtime", "zero-trust", "privacy-first",
   "offline-first", "federated"]

def domains : List String :=
  ["notes", "search", "scheduler", "webhooks", "etl", "dashboard",
   "observability", "vector-store", "recommendations", "graphql-gateway",
   "audio-transcribe", "image-annotator", "feature-flags", "secrets-rotator"]

def modalities : List String :=
  ["cli", "webapp", "service", "sdk", "agent", "daemon", "extension"]

def verbs : List String :=
  ["generate", "synchronize", "monitor", "summarize", "classify", "transcode",
   "index", "simulate", "scrape", "normalize", "visualize"]

def targets : List String :=
  ["github issues", "rss feeds", "email", "log files", "browser history",
   "api responses", "pdfs", "screenshots", "terminal sessions", "config files"]

/-- Python's `<` on strings: lexicographic comparison by code point. -/
def charsLt : List Char → List Char → Bool
  | [], [] => false
  | [], _ :: _ => true
  | _ :: _, [] => false
  | a :: as, b :: bs =>
    if a.toNat < b.toNat then true
    else if b.toNat < a.toNat then false
    else charsLt as bs

/-- Insert a string into a sorted duplicate-free list (used to model Python's
`sorted({a, b, c})` on a three-element set). -/
def insSortedNoDup (x : String) : List String → List String
  | [] => [x]
  | y :: ys => if x = y then y :: ys else if charsLt x.data y.data then x :: y :: ys
               else y :: insSortedNoDup x ys

def sortedSet3 (a b c : String) : List String :=
  insSortedNoDup a (insSortedNoDup b (insSortedNoDup c []))

/-- `offline_idea_seed`: reseed the generator from `today` (discarding the
incoming state `st`, exactly as `random.seed` does), draw the five word
choices, and compose the candidate.  `none` would require one of the five
concrete word lists to be empty (it never is: `offline_idea_seed_total`). -/
def offline_idea_seed {σ : Type} (R : PyRandom σ) (_st : σ) (today : String) :
    Option (Idea × σ) :=
  let st0 := R.seed today
  match pyChoice R st0 adjectives with
  | none => none
  | some (adj, st1) =>
  match pyChoice R st1 domains with
  | none => none
  | some (dom, st2) =>
  match pyChoice R st2 modalities with
  | none => none
  | some (md, st3) =>
  match pyChoice R st3 verbs with
  | none => none
  | some (verb, st4) =>
  match pyChoice R st4 targets with
  | none => none
  | some (tgt, st5) =>
    some ({ title := adj ++ " " ++ dom ++ " " ++ md,
            summary := "A " ++ md ++ " that can " ++ verb ++ " and manage " ++ tgt ++
                       " with a focus on " ++ adj ++ " " ++ dom ++ ".",
            tags := sortedSet3 adj dom md }, st5)

/-- Total wrapper used by the orchestrator; the default is dead code by
`offline_idea_seed_total`. -/
def offlineIdeaT {σ : Type} (R : PyRandom σ) (st : σ) (today : String) : Idea × σ :=
  (offline_idea_seed R st today).getD (⟨"", "", []⟩, st)

def alphanum : List Char :=
  ['a','b','c','d','e','f','g','h','i','j','k','l','m','n','o','p','q','r','s',
   't','u','v','w','x','y','z','0','1','2','3','4','5','6','7','8','9']

/-! ### Remote-provider response parsing (daily_idea.py lines 179-189, 233-242)

Both remote providers parse the model's free-text answer with
`re.search(r"(?i)title\s*[:\-]\s*(.+)", content)` (and likewise for
`summary` / `tags`).  We model that regex search exactly, including the
backtracking of the second `\s*` against the `(.+)` requirement. -/

/-- Case-insensitively consume a (lowercase) keyword at the head of `cs`. -/
def eatKeyCI : List Char → List Char → Option (List Char)
  | [], l => some l
  | _ :: _, [] => none
  | k :: ks, c :: cs => if pyLowerChar c = k then eatKeyCI ks cs else none

/-- Match `\s*(.+)` at `rest`: the greedy `\s*` backtracks (largest first)
until `(.+)` can consume at least one non-newline character; the capture runs
to the next newline. -/
def findCapture (rest : List Char) : Option (List Char) :=
  let n := (rest.takeWhile isWs).length
  ((List.range (n + 1)).reverse).findSome? fun j =>
    match rest.drop j with
    | [] => none
    | c :: cs2 => if c = '\n' then none else some ((c :: cs2).takeWhile (· ≠ '\n'))

/-- Try the pattern `kw\s*[:\-]\s*(.+)` at one start position. -/
def matchPatAt (kw cs : List Char) : Option (List Char) :=
  match eatKeyCI kw cs with
  | none => none
  | some r1 =>
    match r1.dropWhile isWs with
    | [] => none
    | c :: r3 => if c = ':' || c = '-' then findCapture r3 else none

/-- `re.search`: leftmost start position at which the pattern matches. -/
def reSearch (kw : List Char) : List Char → Option (List Char)
  | [] => none
  | c :: cs =>
    match matchPatAt kw (c :: cs) with
    | some cap => some cap
    | none => reSearch kw cs

/-- Model of `re.split(r"[,|]", s)`: split at every `,` or `|`. -/
def splitCommaPipe : List Char → List Char → List String
  | [], acc => [String.mk acc.reverse]
  | c :: cs, acc =>
    if c = ',' || c = '|' then String.mk acc.reverse :: splitCommaPipe cs []
    else splitCommaPipe cs (c :: acc)

/-- The parse stage shared by `openai_idea` and `azure_openai_idea`, applied
to the `content` string extracted from the HTTP response.  When no `Title:`
line is found the code falls back to `content.splitlines()[0][:60]`; on an
empty `content` that raises `IndexError`, which the surrounding `except`
turns into `None` (modelled by `none`). -/
def parseRemote (contentRaw : String) : Option Idea :=
  let content := pyStrip contentRaw
  let titleRes : Option String :=
    match reSearch "title".data content.data with
    | some cap => some (pyStrip (String.mk cap))
    | none => (splitLines content).head?.map (fun l => String.mk (l.data.take 60))
  match titleRes with
  | none => none
  | some title =>
    let summary : String :=
      match reSearch "summary".data content.data with
      | some cap => pyStrip (String.mk cap)
      | none => ""
    let tags : List String :=
      match reSearch "tags".data content.data with
      | some cap =>
        (((splitCommaPipe cap []).filter (fun t => pyStrip t ≠ "")).map
          (fun t => pyStripChar '#' (pyStrip t))).take 5
      | none => []
    some { title := title, summary := summary, tags := tags }

/-! ### Scanning historical slugs (daily_idea.py lines 247-263) -/

/-- Consume exactly `n` decimal digits. -/
def eatDigits : Nat → List Char → Option (List Char)
  | 0, l => some l
  | _ + 1, [] => none
  | n + 1, c :: cs => if isDigit c then eatDigits n cs else none

/-- Consume one mandatory whitespace character and the rest of its run
(`\s+` with no profitable backtracking, as analysed for this pattern). -/
def eatWs1 : List Char → Option (List Char)
  | [] => none
  | c :: cs => if isWs c then some (cs.dropWhile isWs) else none

/-- Model of `re.match(r"^###\s+\d{4}-\d{2}-\d{2}\s+[—-]\s+(.+)$", line.strip())`:
returns the captured title.  Operates on the stripped line, so the final
`\s+(.+)$` reduces to "at least one whitespace, then the nonempty rest". -/
def parseHeading (line : String) : Option String :=
  match (pyStrip line).data with
  | '#' :: '#' :: '#' :: r0 =>
    match eatWs1 r0 with
    | none => none
    | some r1 =>
      match eatDigits 4 r1 with
      | none => none
      | some ('-' :: r2) =>
        match eatDigits 2 r2 with
        | none => none
        | some ('-' :: r3) =>
          match eatDigits 2 r3 with
          | none => none
          | some r4 =>
            match eatWs1 r4 with
            | none => none
            | some (c :: r5) =>
              if c = '—' || c = '-' then
                match eatWs1 r5 with
                | none => none
                | some [] => none
                | some rest => some (String.mk rest)
              else none
            | some [] => none
        | _ => none
      | _ => none
  | _ => none

/-- `list_existing_idea_slugs`: collect `slugify(title.strip())` for every
heading line of every ideas markdown file.  (The Python code stores them in
a set; we keep a list and only ever test membership.) -/
def scanSlugs (ideas : List (String × String)) : List String :=
  ideas.foldl
    (fun acc f =>
      (splitLines f.2).foldl
        (fun a line =>
          match parseHeading line with
          | some t => a ++ [slugify (pyStrip t)]
          | none => a) acc)
    []

/-! ### Environment, oracles, file-system state -/

/-- The environment variables read by `main` (values of `os.getenv`). -/
structure Env where
  azureKey : Option String
  azureEndpoint : Option String
  azureDeployment : Option String
  openaiKey : Option String
  githubToken : Option String
  ghToken : Option String
  greenPat : Option String
  validateGithub : Option String
deriving Repr, DecidableEq

/-- Python truthiness of an `os.getenv` result (unset or empty is falsy). -/
def optTruthy : Option String → Bool
  | none => false
  | some s => s ≠ ""

/-- `os.getenv("GITHUB_TOKEN") or os.getenv("GH_TOKEN") or os.getenv("GREEN_PAT")`. -/
def ghTokenRes (env : Env) : Option String :=
  if optTruthy env.githubToken then env.githubToken
  else if optTruthy env.ghToken then env.ghToken
  else env.greenPat

/-- `os.getenv("IDEA_VALIDATE_GITHUB", "true").lower() not in {"0","false","no"}`. -/
def validateGh (env : Env) : Bool :=
  let v := pyLower (env.validateGithub.getD "true")
  !(v = "0" || v = "false" || v = "no")

/-- Nondeterministic externals of one run: the two remote backends' parsed
responses per attempt (absorbing transport, JSON and text parsing), and the
GitHub name-search verdict per slug (absorbing its fail-open handler). -/
structure Oracles where
  azureResp : Nat → Option Idea
  openaiResp : Nat → Option Idea
  ghFound : String → Bool

/-- `github_repo_name_exists`: `False` without a (truthy) token, otherwise
the search verdict. -/
def github_repo_name_exists (orc : Oracles) (slug : String) (token : Option String) :
    Bool :=
  if !(optTruthy token) then false else orc.ghFound slug

/-- The `is_unique` closure of `main` (daily_idea.py lines 323-328). -/
def isUnique (env : Env) (orc : Oracles) (seen : List String) (slug : String) : Bool :=
  if seen.contains slug then false
  else if validateGh env && github_repo_name_exists orc slug (ghTokenRes env) then false
  else true

/-- One JSONL line: `some r` for a parseable record line, `none` for a
malformed line (blank lines are skipped by the code and not modelled). -/
structure Record where
  date : String
  concept : String
  summary : String
  tags : List String
  theme : String
  slug : String
  repo_name : String
  source : String
deriving Repr, DecidableEq

/-- The files `main` reads and writes: the ideas markdown files (name ↦
content), this month's JSONL lines, `.green/todays_idea.json` and
`docs/latest.json`. -/
structure FS where
  ideas : List (String × String)
  jsonl : List (Option Record)
  green : Option Record
  latest : Option Record
deriving Repr, DecidableEq

def lookupFile (files : List (String × String)) (name : String) : Option String :=
  (files.find? (fun f => f.1 = name)).map (fun f => f.2)

def updateFile : List (String × String) → String → String → List (String × String)
  | [], _, _ => []
  | f :: rest, name, newC =>
    if f.1 = name then (f.1, newC) :: rest else f :: updateFile rest name newC

/-! ### The generation / uniqueness retry loop (daily_idea.py lines 330-365) -/

/-- Lines 332-351: pick one round's candidate — Azure when fully configured,
else OpenAI when its key is set, else the offline generator seeded with
`f"{today}-{attempt}"`. -/
def attemptCandidate {σ : Type} (R : PyRandom σ) (env : Env) (orc : Oracles)
    (today : String) (attempt : Nat) (st : σ) : Idea × σ :=
  let azCand : Option Idea :=
    if optTruthy env.azureKey && optTruthy env.azureEndpoint &&
       optTruthy env.azureDeployment then orc.azureResp attempt else none
  let cand1 : Option Idea :=
    match azCand with
    | some c => some c
    | none => if optTruthy env.openaiKey then orc.openaiResp attempt else none
  match cand1 with
  | some c => (c, st)
  | none => offlineIdeaT R st (today ++ "-" ++ natStr attempt)

/-- Line 354: `slug_try = slugify(title_try) or f"idea-{attempt}"`. -/
def slugTry (c : Idea) (attempt : Nat) : String :=
  let s := slugify (pyStrip c.title)
  if s = "" then "idea-" ++ natStr attempt else s

/-- Line 361: the in-round repair appending the attempt-indexed qualifier. -/
def repairTitle (c : Idea) (attempt : Nat) : Idea :=
  { c with title := pyStrip c.title ++ " (" ++ natStr (attempt + 1) ++ ")" }

/-- One run of the `for attempt in range(6)` loop, as a recursion on the
remaining rounds (`fuel`, starting at 6) with the current `attempt` index and
the threaded `random` state.  Returns the accepted candidate (`none` when all
rounds fail) and the final generator state. -/
def genLoop {σ : Type} (R : PyRandom σ) (env : Env) (orc : Oracles)
    (seen : List String) (today : String) : Nat → Nat → σ → Option Idea × σ
  | 0, _, st => (none, st)
  | fuel + 1, attempt, st =>
    let cst := attemptCandidate R env orc today attempt st
    if isUnique env orc seen (slugTry cst.1 attempt) then (some cst.1, cst.2)
    else if isUnique env orc seen (slugify (repairTitle cst.1 attempt).title) then
      (some (repairTitle cst.1 attempt), cst.2)
    else genLoop R env orc seen today fuel (attempt + 1) cst.2

/-- The exhaustion fallback (daily_idea.py lines 367-372): offline candidate
for `today` plus a four-character random alphanumeric suffix. -/
def forcedIdea {σ : Type} (R : PyRandom σ) (st : σ) (today : String) : Idea × σ :=
  let b := offlineIdeaT R st today
  let p1 := pickT R b.2 alphanum (by decide)
  let p2 := pickT R p1.2 alphanum (by decide)
  let p3 := pickT R p2.2 alphanum (by decide)
  let p4 := pickT R p3.2 alphanum (by decide)
  ({ b.1 with title := b.1.title ++ " " ++ String.mk [p1.1, p2.1, p3.1, p4.1] }, p4.2)

/-! ### Normalization and persistence (daily_idea.py lines 296-450) -/

def pad2 (n : Nat) : String := if n < 10 then "0" ++ natStr n else natStr n

def pad4 (n : Nat) : String :=
  if n < 10 then "000" ++ natStr n
  else if n < 100 then "00" ++ natStr n
  else if n < 1000 then "0" ++ natStr n
  else natStr n

/-- `today[:7]`: the `YYYY-MM` prefix of `date.isoformat()`. -/
def monthStr (y m : Nat) : String := pad4 y ++ "-" ++ pad2 m

/-- `date.isoformat()`. -/
def isoDate (y m d : Nat) : String := monthStr y m ++ "-" ++ pad2 d

/-- Line 378: `title = limit_words(idea.get("title", ...).strip(), 8)`. -/
def normTitle (idea : Idea) : String := limit_words (pyStrip idea.title) 8

/-- Line 380: `summary = limit_words(idea.get("summary", "").strip(), 35)`. -/
def normSummary (idea : Idea) : String := limit_words (pyStrip idea.summary) 35

/-- Line 385: `slug = slugify(title) or "idea"`. -/
def normSlug (idea : Idea) : String :=
  let s := slugify (normTitle idea)
  if s = "" then "idea" else s

/-- Line 422: the `source` field, recomputed from the environment at
persistence time. -/
def envSource (env : Env) : String :=
  if optTruthy env.azureKey then "azure"
  else if optTruthy env.openaiKey then "openai" else "offline"

/-- Lines 376-386 and 414-423: normalize the accepted candidate's fields and
assemble the persisted record.  The `source` field is independent of which
provider produced the candidate. -/
def mkRecord (env : Env) (y m d : Nat) (idea : Idea) : Record :=
  { date := isoDate y m d, concept := normTitle idea, summary := normSummary idea,
    tags := clean_tags idea.tags 5, theme := day_theme ⟨y, m, d⟩,
    slug := normSlug idea, repo_name := normSlug idea ++ "-" ++ isoDate y m d,
    source := envSource env }

/-- The markdown entry block (lines 388-399), after removing empty lines. -/
def entryLines (rec : Record) : List String :=
  ([ "### " ++ rec.date ++ " — " ++ rec.concept,
     "",
     "Theme: `" ++ rec.theme ++ "`",
     "Repo: `" ++ rec.repo_name ++ "`",
     (if rec.tags ≠ [] then
        "Tags: " ++ pyJoin ", " (rec.tags.map (fun t => "`" ++ t ++ "`"))
      else ""),
     "",
     (if rec.summary ≠ "" then "Summary: " ++ rec.summary else ""),
     "" ]).filter (fun l => l ≠ "")

/-- Lines 401-411: create the month file with a header, or append the entry. -/
def newMdContent (existing : Option String) (monthS : String) (rec : Record) :
    String :=
  match existing with
  | none =>
    pyJoin "\n"
      (["# Idea Log — " ++ monthS, "", "Daily repository ideas (generated automatically).", ""]
        ++ entryLines rec) ++ "\n"
  | some old => old ++ "\n" ++ pyJoin "\n" (entryLines rec) ++ "\n"

/-- Lines 430-441: scan the JSONL lines for a record dated `today`.  A
malformed line raises inside the `try`, the `except` passes, and `already`
keeps the value `False` it had before the loop found anything. -/
def jsonlHasToday (lines : List (Option Record)) (today : String) : Bool :=
  match lines with
  | [] => false
  | some r :: rest => if r.date = today then true else jsonlHasToday rest today
  | none :: _ => false

/-- Lines 311-314: skip the whole run when this month's markdown file
already contains today's date string. -/
def mdGuard (fs : FS) (y m d : Nat) : Bool :=
  match lookupFile fs.ideas (monthStr y m ++ ".md") with
  | some content => strContains content (isoDate y m d)
  | none => false

/-- The idea `main` ends up persisting: the retry loop's accepted candidate,
or the forced-suffix fallback built from the loop's final generator state. -/
def chosenIdea {σ : Type} (R : PyRandom σ) (env : Env) (orc : Oracles)
    (seen : List String) (today : String) (st : σ) : Idea :=
  let gl := genLoop R env orc seen today 6 0 st
  match gl.1 with
  | some c => c
  | none => (forcedIdea R gl.2 today).1

/-- The non-skipped remainder of `main` (lines 316-450): generate, normalize,
and persist to the markdown log, the JSONL log, the scratch file and the
latest snapshot. -/
def runBody {σ : Type} (R : PyRandom σ) (env : Env) (orc : Oracles)
    (y m d : Nat) (st : σ) (fs : FS) : Nat × FS :=
  let today := isoDate y m d
  let monthName := monthStr y m ++ ".md"
  let existing := lookupFile fs.ideas monthName
  let idea := chosenIdea R env orc (scanSlugs fs.ideas) today st
  let record := mkRecord env y m d idea
  let ideas2 :=
    match existing with
    | none => fs.ideas ++ [(monthName, newMdContent none (monthStr y m) record)]
    | some old => updateFile fs.ideas monthName (newMdContent (some old) (monthStr y m) record)
  let jsonl2 :=
    if jsonlHasToday fs.jsonl today then fs.jsonl else fs.jsonl ++ [some record]
  (0, { ideas := ideas2, jsonl := jsonl2, green := some record, latest := some record })

/-- `main` (daily_idea.py lines 296-450).  Inputs: the abstract generator and
its incoming state, the environment, the network oracles, the (possibly
overridden) date, and the current files; output: the exit code and the files
after the run.  Environment loading (line 298) happens before `main`'s body
and is modelled by `load_local_env` separately. -/
def main {σ : Type} (R : PyRandom σ) (env : Env) (orc : Oracles)
    (y m d : Nat) (st : σ) (fs : FS) : Nat × FS :=
  if mdGuard fs y m d then (0, fs)
  else runBody R env orc y m d st fs

/-! ### The environment loader (util_env.py) -/

/-- First-occurrence split on `=` (Python `line.split("=", 1)`); `none` when
the line contains no `=`. -/
def splitEqFirst (s : String) : Option (String × String) :=
  match s.data.dropWhile (fun c => c ≠ '=') with
  | [] => none
  | _ :: rest => some (String.mk (s.data.takeWhile (fun c => c ≠ '=')), String.mk rest)

/-- `_parse_line` (util_env.py lines 16-29). -/
def pyParseLine (line : String) : Option (String × String) :=
  if line = "" then none
  else if (pyStrip line).data.head? = some '#' then none
  else
    match splitEqFirst line with
    | none => none
    | some kv =>
      let k := pyStrip kv.1
      let v1 := pyStrip kv.2
      let v :=
        if (v1.data.head? = some '"' && v1.data.getLast? = some '"') ||
           (v1.data.head? = some '\'' && v1.data.getLast? = some '\'') then
          String.mk (v1.data.drop 1).dropLast
        else v1
      if k = "" then none else some (k, v)

/-- `os.environ` as an association list; `os.environ[k] = v` updates the
first binding or appends. -/
def setEnvVar : List (String × String) → String → String → List (String × String)
  | [], k, v => [(k, v)]
  | p :: rest, k, v =>
    if p.1 = k then (k, v) :: rest else p :: setEnvVar rest k v

/-- The loop of `load_local_env` (util_env.py lines 39-47): parse each line,
skip unparseable ones, skip keys already present unless `override`, inject
the rest, counting injections. -/
def loadEnvGo (override : Bool) :
    List String → List (String × String) → Nat → List (String × String) × Nat
  | [], envv, n => (envv, n)
  | line :: rest, envv, n =>
    match pyParseLine line with
    | none => loadEnvGo override rest envv n
    | some kv =>
      if !override && (envv.lookup kv.1).isSome then loadEnvGo override rest envv n
      else loadEnvGo override rest (setEnvVar envv kv.1 kv.2) (n + 1)

/-- `load_local_env` on the lines of an existing `local.env` (a missing file
returns the environment unchanged with count 0 before this loop runs). -/
def load_local_env (fileLines : List String) (override : Bool)
    (envv : List (String × String)) : List (String × String) × Nat :=
  loadEnvGo override fileLines envv 0

/-! ### The backfill driver (backfill.py lines 49-101)

Dates are modelled by their ordinals (`dt.date` + one day = ordinal + 1);
`run_for_date` — a subprocess invocation of `daily_idea.py` — is an abstract
runner from date to exit code.  The driver also returns the list of dates it
invoked the runner on, in invocation order. -/

def backfillGo (runner : Nat → Int) (e : Nat) : Nat → Nat → Nat × List Nat
  | _, 0 => (0, [])
  | dd, fuel + 1 =>
    if dd ≤ e then
      let code := runner dd
      let r := backfillGo runner e (dd + 1) fuel
      ((if code ≠ 0 then 1 else 0) + r.1, dd :: r.2)
    else (0, [])

/-- `main` of backfill.py: usage errors aside, reject `end < start` with exit
2, otherwise run every date from `start` to `end` inclusive, count failures,
and exit 0 exactly when there were none.  Result: (exit code, failure count,
dates run in order). -/
def backfill_main (runner : Nat → Int) (s e : Nat) : Int × Nat × List Nat :=
  if e < s then (2, 0, [])
  else
    let r := backfillGo runner e s (e + 1 - s)
    ((if r.1 = 0 then 0 else 1), r.1, r.2)

/-! ## Concrete instances used to exercise the model on closed inputs -/

/-- A trivial generator model: state `Unit`, always index 0. -/
def trivGen : PyRandom Unit := ⟨fun _ => (), fun _ _ => (0, ())⟩

def emptyFS : FS := ⟨[], [], none, none⟩

/-- No environment variable set: only the offline provider can run. -/
def offlineEnv : Env := ⟨none, none, none, none, none, none, none, none⟩

def nullOracles : Oracles := ⟨fun _ => none, fun _ => none, fun _ => false⟩

/-- The record `main` persists for 2025-02-01 from `trivGen` / `offlineEnv`
on empty state (checked by evaluation; used by several witnesses). -/
def sampleRecord : Record :=
  { date := "2025-02-01",
    concept := "quantum notes cli",
    summary := "A cli that can generate and manage github issues with a focus on quantum notes.",
    tags := ["cli", "notes", "quantum"],
    theme := "automation",
    slug := "quantum-notes-cli",
    repo_name := "quantum-notes-cli-2025-02-01",
    source := "offline" }

/-! ## Theorems -/

/-- The snapshot written by a non-skipped run is the normalized record of the
chosen idea. -/
theorem runBody_latest {σ : Type} (R : PyRandom σ) (env : Env) (orc : Oracles)
    (y m d : Nat) (st : σ) (fs : FS) :
    (runBody R env orc y m d st fs).2.latest =
      some (mkRecord env y m d
        (chosenIdea R env orc (scanSlugs fs.ideas) (isoDate y m d) st)) := rfl

/-- C5: the offline provider is deterministic and total: its result does not
depend on the incoming generator state (it reseeds from the seed string, so
two invocations with the same seed string return identical
`{title, summary, tags}` triples), and it always returns a candidate. -/
theorem C5_offline_deterministic_total {σ : Type} (R : PyRandom σ)
    (st st' : σ) (today : String) :
    offline_idea_seed R st today = offline_idea_seed R st' today ∧
    ∃ v : Idea × σ, offline_idea_seed R st today = some v := by
  constructor
  · rfl
  · exact ⟨_, rfl⟩

/-- The offline provider never returns `none` (the `getD` default in
`offlineIdeaT` is dead code). -/
theorem offline_idea_seed_total {σ : Type} (R : PyRandom σ) (st : σ)
    (today : String) : ∃ v, offline_idea_seed R st today = some v :=
  ⟨_, rfl⟩

/-- C6: the theme is the fixed rotation `THEMES[(N-1) mod len(THEMES)]` over
the day-of-year `N`: definitionally for `day_theme`, any two dates with equal
day-of-year get equal themes, and every record `main` persists carries
exactly that theme for its run date. -/
theorem C6_theme_rotation :
    (∀ dt : Date, day_theme dt = THEMES.getD ((dayOfYear dt - 1) % THEMES.length) "") ∧
    (∀ d1 d2 : Date, dayOfYear d1 = dayOfYear d2 → day_theme d1 = day_theme d2) ∧
    (∀ (σ : Type) (R : PyRandom σ) (env : Env) (orc : Oracles)
       (y m d : Nat) (st : σ) (fs : FS) (r : Record),
       mdGuard fs y m d = false →
       (main R env orc y m d st fs).2.latest = some r →
       r.theme = THEMES.getD ((dayOfYear ⟨y, m, d⟩ - 1) % THEMES.length) "") := by
  refine ⟨fun _ => rfl, fun d1 d2 h => ?_, ?_⟩
  · simp only [day_theme, h]
  · intro σ R env orc y m d st fs r hg hl
    rw [main, hg] at hl
    simp only [Bool.false_eq_true, if_false, runBody] at hl
    cases hl
    rfl

/-- Collapsing hyphen runs after the `[^a-z0-9-]+ → -` substitution is the
same as substituting every `[^a-z0-9]+` run (hyphens included) by one `-`.
The three conjuncts track the run flags of the interleaved passes. -/
theorem collapseDash_subNonTag (l : List Char) :
    (∀ b, collapseDashAux (subNonTagAux l b) b = subNonAlnumAux l b) ∧
    collapseDashAux (subNonTagAux l false) true = subNonAlnumAux l true ∧
    collapseDashAux (subNonTagAux l true) true = subNonAlnumAux l true := by
  induction l with
  | nil => exact ⟨fun _ => rfl, rfl, rfl⟩
  | cons c cs ih =>
    obtain ⟨ihG, ihH1, ihH2⟩ := ih
    by_cases ha : isAlnumLow c = true
    · have htag : isTagChar c = true := by simp [isTagChar, ha]
      have hnd : (c = '-') = False := by
        simp only [eq_iff_iff, iff_false]
        intro hcd
        subst hcd
        simp [isAlnumLow, isDigit] at ha
      refine ⟨fun b => ?_, ?_, ?_⟩ <;>
        simp [subNonTagAux, subNonAlnumAux, collapseDashAux, htag, ha, hnd, ihG false]
    · by_cases hd : c = '-'
      · subst hd
        have htag : isTagChar '-' = true := by simp [isTagChar]
        refine ⟨fun b => ?_, ?_, ?_⟩
        · cases b <;>
            simp [subNonTagAux, subNonAlnumAux, collapseDashAux, htag, ha, ihH1]
        · simp [subNonTagAux, subNonAlnumAux, collapseDashAux, htag, ha, ihH1]
        · simp [subNonTagAux, subNonAlnumAux, collapseDashAux, htag, ha, ihH1]
      · have htag : isTagChar c = false := by simp [isTagChar, ha, hd]
        refine ⟨fun b => ?_, ?_, ?_⟩
        · cases b <;>
            simp [subNonTagAux, subNonAlnumAux, collapseDashAux, htag, ha, hd, ihH2]
        · simp [subNonTagAux, subNonAlnumAux, collapseDashAux, htag, ha, hd, ihH2]
        · simp [subNonTagAux, subNonAlnumAux, collapseDashAux, htag, ha, hd, ihH2]

/-- The description of `slugify` amended as the code forces: lowercase, then
replace each run of characters outside `[a-z0-9]` — pre-existing hyphens
included — by a single `-`, then trim hyphens from both ends. -/
def slugifyAmended (name : String) : String :=
  pyStripChar '-' (String.mk (subNonAlnum (pyLower name).data))

/-- C7 (counterexample): the source's `slugify` collapses a hyphen run that
was already present in the input, so it differs from the spec's description,
which preserves such runs. -/
theorem C7_slug_spec_counterexample :
    slugify "a--b" = "a-b" ∧ slugifySpec "a--b" = "a--b" ∧
    slugify "a--b" ≠ slugifySpec "a--b" := by
  decide

/-- C7 (amended): slug normalization equals lowercasing, replacing each run
of characters outside `[a-z0-9]` (hyphens included) with a single `-`, and
trimming leading/trailing `-`; i.e. hyphen runs present in the input are
collapsed, not preserved. -/
theorem C7_slugify_amended (s : String) : slugify s = slugifyAmended s := by
  unfold slugify slugifyAmended collapseDash subNonTag subNonAlnum
  rw [(collapseDash_subNonTag (pyLower s).data).1 false]

/-- The failure-counting loop of backfill.py visits exactly the dates
`start, start+1, …, end` in order and counts the runner's nonzero exits. -/
theorem backfillGo_spec (runner : Nat → Int) (e : Nat) :
    ∀ fuel dd, e + 1 - dd ≤ fuel →
      backfillGo runner e dd fuel =
        ((List.range' dd (e + 1 - dd)).countP (fun x => decide (runner x ≠ 0)),
         List.range' dd (e + 1 - dd)) := by
  intro fuel
  induction fuel with
  | zero =>
    intro dd h
    have h0 : e + 1 - dd = 0 := Nat.le_zero.mp h
    simp [backfillGo, h0]
  | succ fuel ih =>
    intro dd h
    by_cases hle : dd ≤ e
    · have hk : e + 1 - dd = (e + 1 - (dd + 1)) + 1 := by omega
      have hk2 : e + 1 - (dd + 1) ≤ fuel := by omega
      rw [hk, List.range'_succ]
      simp only [backfillGo, if_pos hle, ih (dd + 1) hk2, List.countP_cons]
      rw [Prod.mk.injEq]
      refine ⟨?_, rfl⟩
      by_cases hz : runner dd ≠ 0 <;> simp [hz, Nat.add_comm]
    · have h0 : e + 1 - dd = 0 := by omega
      simp [backfillGo, h0, if_neg hle]

/-- C8: for a closed range with `start ≤ end` the backfill driver invokes the
single-day runner exactly once per date, in strictly increasing order, does
not halt on a nonzero exit, reports the number of failing days, and exits 0
iff no day failed. -/
theorem C8_backfill_range (runner : Nat → Int) (s e : Nat) (h : s ≤ e) :
    (backfill_main runner s e).2.2 = List.range' s (e + 1 - s) ∧
    List.Pairwise (· < ·) (backfill_main runner s e).2.2 ∧
    (∀ x, x ∈ (backfill_main runner s e).2.2 ↔ s ≤ x ∧ x ≤ e) ∧
    (backfill_main runner s e).2.1 =
      ((backfill_main runner s e).2.2.countP (fun x => decide (runner x ≠ 0))) ∧
    ((backfill_main runner s e).1 = 0 ↔
      ∀ x ∈ (backfill_main runner s e).2.2, runner x = 0) := by
  have hne : ¬ e < s := Nat.not_lt.mpr h
  have hgo := backfillGo_spec runner e (e + 1 - s) s (Nat.le_refl _)
  have hmain : backfill_main runner s e =
      (if (List.range' s (e + 1 - s)).countP (fun x => decide (runner x ≠ 0)) = 0
         then 0 else 1,
       (List.range' s (e + 1 - s)).countP (fun x => decide (runner x ≠ 0)),
       List.range' s (e + 1 - s)) := by
    simp only [backfill_main, if_neg hne, hgo]
  refine ⟨by rw [hmain], ?_, ?_, by rw [hmain], ?_⟩
  · rw [hmain]
    exact List.pairwise_lt_range' s (e + 1 - s)
  · intro x
    rw [hmain]
    simp only [List.mem_range'_1]
    omega
  · rw [hmain]
    by_cases hc : (List.range' s (e + 1 - s)).countP (fun x => decide (runner x ≠ 0)) = 0
    · rw [if_pos hc]
      constructor
      · intro _ x hx
        have := List.countP_eq_zero.mp hc x hx
        simpa using this
      · intro _
        rfl
    · rw [if_neg hc]
      constructor
      · intro h10
        simp at h10
      · intro hall
        exfalso
        apply hc
        rw [List.countP_eq_zero]
        intro a ha
        simpa using hall a ha

/-- Example runner for the backfill witness: day 5 fails, all others pass. -/
def bfRunnerEx : Nat → Int := fun dd => if dd = 5 then 1 else 0

/-- Witness for C8 on the concrete range 4..6 with one failing day. -/
theorem C8_backfill_range_witness :
    4 ≤ 6 ∧ (backfill_main bfRunnerEx 4 6).2.2 = List.range' 4 (6 + 1 - 4) ∧
    ((backfill_main bfRunnerEx 4 6).1 = 0 ↔
      ∀ x ∈ (backfill_main bfRunnerEx 4 6).2.2, bfRunnerEx x = 0) :=
  ⟨by decide, (C8_backfill_range bfRunnerEx 4 6 (by decide)).1,
   (C8_backfill_range bfRunnerEx 4 6 (by decide)).2.2.2.2⟩

/-- Witness for C6 at concrete inputs: same day-of-year across years gives
the same theme, and the concrete 2025-02-01 run persists theme
`THEMES[(32-1) mod 7] = "automation"`. -/
theorem C6_theme_rotation_witness :
    day_theme ⟨2025, 3, 14⟩ = day_theme ⟨2027, 3, 14⟩ ∧
    mdGuard emptyFS 2025 2 1 = false ∧
    (main trivGen offlineEnv nullOracles 2025 2 1 () emptyFS).2.latest =
      some sampleRecord ∧
    sampleRecord.theme = THEMES.getD ((dayOfYear ⟨2025, 2, 1⟩ - 1) % THEMES.length) "" :=
  ⟨C6_theme_rotation.2.1 _ _ (by decide), by decide, by decide,
   C6_theme_rotation.2.2 Unit trivGen offlineEnv nullOracles 2025 2 1 () emptyFS
     sampleRecord (by decide) (by decide)⟩

/-- C3 (counterexample): on a response whose text contains no `Title:` line
the remote providers' parse stage does not fail closed — it returns a
candidate whose title is improvised from the first line of the content. -/
theorem C3_remote_parse_counterexample :
    reSearch "title".data (pyStrip "an improvised reply with no marker").data = none ∧
    parseRemote "an improvised reply with no marker" =
      some { title := "an improvised reply with no marker", summary := "", tags := [] } := by
  decide

/-- C3 (amended): with no `Title:` match in the (stripped) response text, the
remote parse stage fails closed exactly when the text is empty (the
`IndexError` of `splitlines()[0]` is caught and turned into `None`);
otherwise it returns a candidate whose title is the first line truncated to
60 characters. -/
theorem C3_remote_parse_amended (content : String)
    (h : reSearch "title".data (pyStrip content).data = none) :
    (parseRemote content = none ↔ splitLines (pyStrip content) = []) ∧
    (∀ i : Idea, parseRemote content = some i →
      i.title = String.mk (((splitLines (pyStrip content)).headD "").data.take 60)) := by
  cases hl : splitLines (pyStrip content) with
  | nil =>
    constructor
    · simp [parseRemote, h, hl]
    · intro i hi
      simp [parseRemote, h, hl] at hi
  | cons l ls =>
    constructor
    · simp [parseRemote, h, hl]
    · intro i hi
      simp only [parseRemote, h, hl, List.head?_cons, Option.map_some'] at hi
      cases hi
      simp

/-- Witness for C3 (amended) at a nonempty and at a whitespace-only reply. -/
theorem C3_remote_parse_amended_witness :
    reSearch "title".data (pyStrip "no marker here\nmore text").data = none ∧
    (parseRemote "no marker here\nmore text" = none ↔
      splitLines (pyStrip "no marker here\nmore text") = []) ∧
    reSearch "title".data (pyStrip "   ").data = none ∧
    (parseRemote "   " = none ↔ splitLines (pyStrip "   ") = []) :=
  ⟨by decide, (C3_remote_parse_amended "no marker here\nmore text" (by decide)).1,
   by decide, (C3_remote_parse_amended "   " (by decide)).1⟩

/-- C9: the `source` field of every persisted record is computed from the
environment at persistence time — `azure` when `AZURE_OPENAI_API_KEY` is set
(to a nonempty value), else `openai` when `OPENAI_API_KEY` is set, else
`offline` — for arbitrary oracles, i.e. regardless of which provider
actually produced the accepted candidate. -/
theorem C9_source_from_env (σ : Type) (R : PyRandom σ) (env : Env)
    (orc : Oracles) (y m d : Nat) (st : σ) (fs : FS) (r : Record)
    (hg : mdGuard fs y m d = false)
    (hl : (main R env orc y m d st fs).2.latest = some r) :
    r.source = (if optTruthy env.azureKey then "azure"
                else if optTruthy env.openaiKey then "openai" else "offline") := by
  rw [main, hg] at hl
  simp only [Bool.false_eq_true, if_false, runBody] at hl
  cases hl
  rfl

/-- Environment with all Azure variables set (and no OpenAI key). -/
def azEnv : Env := ⟨some "k", some "https://e", some "dep", none, none, none, none, none⟩

/-- The record persisted by the witness run for C9: the Azure oracle fails on
every attempt, the candidate comes from the offline provider, and the record
still says `source = "azure"`. -/
def azSampleRecord : Record := { sampleRecord with source := "azure" }

/-- Witness for C9: Azure key set, all remote calls fail, offline candidate
accepted, `source` recorded as `"azure"` anyway. -/
theorem C9_source_from_env_witness :
    mdGuard emptyFS 2025 2 1 = false ∧
    (main trivGen azEnv nullOracles 2025 2 1 () emptyFS).2.latest =
      some azSampleRecord ∧
    azSampleRecord.source = (if optTruthy azEnv.azureKey then "azure"
                             else if optTruthy azEnv.openaiKey then "openai"
                             else "offline") :=
  ⟨by decide, by decide,
   C9_source_from_env Unit trivGen azEnv nullOracles 2025 2 1 () emptyFS
     azSampleRecord (by decide) (by decide)⟩

/-- Looking up `k'` after `os.environ[k] = v`: the new value for `k`, the
old one for every other key. -/
theorem lookup_setEnvVar (envv : List (String × String)) (k v k' : String) :
    (setEnvVar envv k v).lookup k' = if k' = k then some v else envv.lookup k' := by
  induction envv with
  | nil =>
    by_cases h : k' = k
    · subst h; simp [setEnvVar, List.lookup]
    · have hf : (k' == k) = false := beq_eq_false_iff_ne.mpr h
      simp [setEnvVar, List.lookup, hf, h]
  | cons p rest ih =>
    obtain ⟨pa, pb⟩ := p
    by_cases hp : pa = k
    · subst hp
      by_cases h : k' = pa
      · subst h; simp [setEnvVar, List.lookup]
      · have hf : (k' == pa) = false := beq_eq_false_iff_ne.mpr h
        simp [setEnvVar, List.lookup, hf, h]
    · by_cases hq : k' = pa
      · subst hq
        simp [setEnvVar, hp, List.lookup]
      · have hf : (k' == pa) = false := beq_eq_false_iff_ne.mpr hq
        simp [setEnvVar, hp, List.lookup, hf, ih]

/-- One unfolding step of the loader loop on a cons cell. -/
theorem loadEnvGo_cons (ov : Bool) (line : String) (rest : List String)
    (envv : List (String × String)) (n : Nat) :
    loadEnvGo ov (line :: rest) envv n =
      match pyParseLine line with
      | none => loadEnvGo ov rest envv n
      | some kv =>
        if !ov && (envv.lookup kv.1).isSome then loadEnvGo ov rest envv n
        else loadEnvGo ov rest (setEnvVar envv kv.1 kv.2) (n + 1) := rfl

/-- Keys already present in the environment keep their prior value under the
(non-override) loader loop. -/
theorem loadEnvGo_preserves (fileLines : List String) :
    ∀ (envv : List (String × String)) (n : Nat) (k : String),
      (envv.lookup k).isSome →
      ((loadEnvGo false fileLines envv n).1.lookup k) = envv.lookup k := by
  induction fileLines with
  | nil => intro envv n k _; rfl
  | cons line rest ih =>
    intro envv n k hk
    cases hp : pyParseLine line with
    | none =>
      rw [loadEnvGo_cons, hp]
      exact ih envv n k hk
    | some kv =>
      by_cases hin : (envv.lookup kv.1).isSome
      · simp only [loadEnvGo_cons, hp, hin, Bool.not_false, Bool.true_and, if_true]
        exact ih envv n k hk
      · have hne : ¬ k = kv.1 := by
          intro he
          rw [he] at hk
          exact hin hk
        have hinf : (envv.lookup kv.1).isSome = false := by
          rw [← Bool.not_eq_true]; exact hin
        have hnew : (setEnvVar envv kv.1 kv.2).lookup k = envv.lookup k := by
          rw [lookup_setEnvVar, if_neg hne]
        have hsome : ((setEnvVar envv kv.1 kv.2).lookup k).isSome := by
          rw [hnew]; exact hk
        simp only [loadEnvGo_cons, hp, hinf, Bool.not_false, Bool.true_and,
          Bool.false_eq_true, if_false]
        rw [ih _ _ _ hsome, hnew]

/-- Keys absent from the environment end up bound to the first value the
file's parseable lines give them (later lines are skipped once present). -/
theorem loadEnvGo_absent (fileLines : List String) :
    ∀ (envv : List (String × String)) (n : Nat) (k : String),
      envv.lookup k = none →
      ((loadEnvGo false fileLines envv n).1.lookup k) =
        ((fileLines.filterMap pyParseLine).find? (fun kv => kv.1 = k)).map
          (fun kv => kv.2) := by
  induction fileLines with
  | nil => intro envv n k hk; simpa [loadEnvGo] using hk
  | cons line rest ih =>
    intro envv n k hk
    cases hp : pyParseLine line with
    | none =>
      rw [loadEnvGo_cons, hp]
      simp [hp, List.filterMap_cons, ih envv n k hk]
    | some kv =>
      by_cases hkk : kv.1 = k
      · subst hkk
        have hinf : (envv.lookup kv.1).isSome = false := by simp [hk]
        have hnew : (setEnvVar envv kv.1 kv.2).lookup kv.1 = some kv.2 := by
          rw [lookup_setEnvVar, if_pos rfl]
        have hres := loadEnvGo_preserves rest (setEnvVar envv kv.1 kv.2) (n + 1) kv.1
          (by rw [hnew]; exact rfl)
        simp only [loadEnvGo_cons, hp, hinf, Bool.not_false, Bool.true_and,
          Bool.false_eq_true, if_false]
        rw [hres, hnew]
        simp [List.filterMap_cons, hp, List.find?_cons]
      · have hfind : ((kv :: rest.filterMap pyParseLine).find? (fun p => p.1 = k)) =
            (rest.filterMap pyParseLine).find? (fun p => p.1 = k) := by
          simp [List.find?_cons, hkk]
        by_cases hin : (envv.lookup kv.1).isSome
        · simp only [loadEnvGo_cons, hp, hin, Bool.not_false, Bool.true_and, if_true]
          simp [List.filterMap_cons, hp, hfind, ih envv n k hk]
        · have hinf : (envv.lookup kv.1).isSome = false := by
            rw [← Bool.not_eq_true]; exact hin
          have hk2 : (setEnvVar envv kv.1 kv.2).lookup k = none := by
            rw [lookup_setEnvVar, if_neg (fun he => hkk he.symm)]
            exact hk
          simp only [loadEnvGo_cons, hp, hinf, Bool.not_false, Bool.true_and,
            Bool.false_eq_true, if_false]
          simp [List.filterMap_cons, hp, hfind,
            ih (setEnvVar envv kv.1 kv.2) (n + 1) k hk2]

/-- C10: with `override=False` the environment loader never overwrites a
present key (its prior value is returned unchanged), injects exactly the
first parsed value for each absent key, and ignores empty lines, `#`-comment
lines, lines without `=`, and lines with an empty key (their parse is `None`,
and the loop leaves the environment untouched on `None`). -/
theorem C10_env_loader_no_override :
    (∀ (fileLines : List String) (envv : List (String × String)) (k : String),
      (envv.lookup k).isSome →
      ((load_local_env fileLines false envv).1.lookup k) = envv.lookup k) ∧
    (∀ (fileLines : List String) (envv : List (String × String)) (k : String),
      envv.lookup k = none →
      ((load_local_env fileLines false envv).1.lookup k) =
        ((fileLines.filterMap pyParseLine).find? (fun kv => kv.1 = k)).map
          (fun kv => kv.2)) ∧
    pyParseLine "" = none ∧
    (∀ line : String, (pyStrip line).data.head? = some '#' → pyParseLine line = none) ∧
    (∀ line : String, (∀ c ∈ line.data, c ≠ '=') → pyParseLine line = none) ∧
    (∀ (line : String) (kraw vraw : String), splitEqFirst line = some (kraw, vraw) →
      pyStrip kraw = "" → pyParseLine line = none) ∧
    (∀ (line : String) (rest : List String) (envv : List (String × String)) (n : Nat),
      pyParseLine line = none →
      loadEnvGo false (line :: rest) envv n = loadEnvGo false rest envv n) := by
  refine ⟨fun fl envv k h => loadEnvGo_preserves fl envv 0 k h,
          fun fl envv k h => loadEnvGo_absent fl envv 0 k h, rfl, ?_, ?_, ?_, ?_⟩
  · intro line hh
    by_cases h0 : line = "" <;> simp [pyParseLine, h0, hh]
  · intro line hall
    have hdrop : line.data.dropWhile (fun c => !decide (c = '=')) = [] := by
      rw [List.dropWhile_eq_nil_iff]
      intro x hx
      simp [hall x hx]
    by_cases h0 : line = ""
    · simp [pyParseLine, h0]
    · by_cases hh : (pyStrip line).data.head? = some '#'
      · simp [pyParseLine, h0, hh]
      · simp [pyParseLine, h0, hh, splitEqFirst, hdrop]
  · intro line kraw vraw hsp hk
    by_cases h0 : line = ""
    · simp [pyParseLine, h0]
    · by_cases hh : (pyStrip line).data.head? = some '#'
      · simp [pyParseLine, h0, hh]
      · simp [pyParseLine, h0, hh, hsp, hk]
  · intro line rest envv n hp
    simp [loadEnvGo, hp]

/-- Witness for C10 on a small concrete file and environment. -/
theorem C10_env_loader_no_override_witness :
    (([("A", "1")] : List (String × String)).lookup "A").isSome = true ∧
    ((load_local_env ["A=2", "B = 3", "#c", "", "nx", " = v"] false [("A", "1")]).1.lookup "A")
      = ([("A", "1")] : List (String × String)).lookup "A" ∧
    (([("A", "1")] : List (String × String)).lookup "B") = none ∧
    ((load_local_env ["A=2", "B = 3", "#c", "", "nx", " = v"] false [("A", "1")]).1.lookup "B")
      = (((["A=2", "B = 3", "#c", "", "nx", " = v"] : List String).filterMap
          pyParseLine).find? (fun kv => kv.1 = "B")).map (fun kv => kv.2) :=
  ⟨by decide,
   C10_env_loader_no_override.1 ["A=2", "B = 3", "#c", "", "nx", " = v"] [("A", "1")] "A"
     (by decide),
   by decide,
   C10_env_loader_no_override.2.1 ["A=2", "B = 3", "#c", "", "nx", " = v"] [("A", "1")] "B"
     (by decide)⟩

/-! ### Word-count and tag lemmas for the normalization bounds (C4) -/

/-- Every piece produced by the whitespace splitter is whitespace-free. -/
theorem splitWsM_wsFree (l : List Char) :
    ∀ (acc : List Char) (b : Bool), (∀ c ∈ acc, isWs c = false) →
      ∀ w ∈ splitWsM l acc b, ∀ c ∈ w.data, isWs c = false := by
  induction l with
  | nil =>
    intro acc b hacc w hw c hc
    simp only [splitWsM, List.mem_singleton] at hw
    subst hw
    exact hacc c (List.mem_reverse.mp hc)
  | cons x xs ih =>
    intro acc b hacc w hw c hc
    simp only [splitWsM] at hw
    by_cases hx : isWs x = true
    · rw [if_pos hx] at hw
      cases b with
      | true => exact ih acc true hacc w hw c hc
      | false =>
        simp only [Bool.false_eq_true, if_false] at hw
        rcases List.mem_cons.mp hw with h | h
        · subst h
          exact hacc c (List.mem_reverse.mp hc)
        · exact ih [] true (by simp) w h c hc
    · rw [if_neg hx] at hw
      refine ih (x :: acc) false ?_ w hw c hc
      intro z hz
      rcases List.mem_cons.mp hz with h | h
      · subst h
        rw [← Bool.not_eq_true]
        exact hx
      · exact hacc z h

theorem wcAux_ws_cons (l : List Char) (b : Bool) (c : Char) (h : isWs c = true) :
    wcAux (c :: l) b = wcAux l false := by
  simp [wcAux, h]

/-- A nonempty whitespace-free token contributes exactly one word. -/
theorem wcAux_token (w : List Char) (hw : ∀ c ∈ w, isWs c = false) (hne : w ≠ []) :
    (∀ l, wcAux (w ++ l) false = 1 + wcAux l true) ∧
    (∀ l, wcAux (w ++ l) true = wcAux l true) := by
  induction w with
  | nil => exact absurd rfl hne
  | cons c w' ih =>
    have hc : isWs c = false := hw c (List.mem_cons_self c w')
    by_cases hw' : w' = []
    · subst hw'
      constructor <;> intro l <;> simp [wcAux, hc]
    · obtain ⟨ih1, ih2⟩ := ih (fun z hz => hw z (List.mem_cons_of_mem c hz)) hw'
      constructor <;> intro l
      · have h1 : wcAux ((c :: w') ++ l) false = 1 + wcAux (w' ++ l) true := by
          simp [wcAux, hc]
        rw [h1, ih2 l]
      · have h1 : wcAux ((c :: w') ++ l) true = wcAux (w' ++ l) true := by
          simp [wcAux, hc]
        rw [h1, ih2 l]

theorem wcAux_single_le (w : List Char) (hw : ∀ c ∈ w, isWs c = false) :
    wcAux w false ≤ 1 := by
  by_cases hne : w = []
  · subst hne
    simp [wcAux]
  · have := (wcAux_token w hw hne).1 []
    rw [List.append_nil] at this
    simp [this, wcAux]

theorem pyJoin_foldl_pull (sep : String) (r : List String) :
    ∀ a b : String,
      r.foldl (fun u v => u ++ sep ++ v) (a ++ b) =
        a ++ r.foldl (fun u v => u ++ sep ++ v) b := by
  induction r with
  | nil => intro a b; rfl
  | cons c r' ih =>
    intro a b
    simp only [List.foldl_cons]
    rw [String.append_assoc (a ++ b) sep c]
    rw [String.append_assoc a b (sep ++ c)]
    rw [← String.append_assoc b sep c]
    exact ih a (b ++ sep ++ c)

theorem pyJoin_cons (sep x y : String) (r : List String) :
    pyJoin sep (x :: y :: r) = x ++ sep ++ pyJoin sep (y :: r) := by
  show (y :: r).foldl (fun u v => u ++ sep ++ v) x = _
  simp only [List.foldl_cons, pyJoin]
  exact pyJoin_foldl_pull sep r (x ++ sep) y

/-- Joining whitespace-free tokens with single spaces yields at most one word
per token. -/
theorem wc_join_le (ts : List String)
    (h : ∀ w ∈ ts, ∀ c ∈ w.data, isWs c = false) :
    wcAux (pyJoin " " ts).data false ≤ ts.length := by
  induction ts with
  | nil => simp [pyJoin, wcAux]
  | cons x ts' ih =>
    cases ts' with
    | nil =>
      simpa [pyJoin] using wcAux_single_le x.data (h x (List.mem_cons_self x []))
    | cons y r =>
      rw [pyJoin_cons]
      have hdata : (x ++ " " ++ pyJoin " " (y :: r)).data =
          x.data ++ ' ' :: (pyJoin " " (y :: r)).data := by
        rw [String.data_append, String.data_append, List.append_assoc]
        rfl
      rw [hdata]
      have hx : ∀ c ∈ x.data, isWs c = false := h x (List.mem_cons_self x (y :: r))
      have htail : ∀ w ∈ y :: r, ∀ c ∈ w.data, isWs c = false :=
        fun w hw => h w (List.mem_cons_of_mem x hw)
      by_cases hxe : x.data = []
      · rw [hxe]
        simp only [List.nil_append]
        rw [wcAux_ws_cons _ _ _ (by decide)]
        exact le_trans (ih htail) (Nat.le_succ _)
      · rw [(wcAux_token x.data hx hxe).1 (' ' :: (pyJoin " " (y :: r)).data)]
        rw [wcAux_ws_cons _ _ _ (by decide)]
        have := ih htail
        simp only [List.length_cons] at this ⊢
        omega

theorem wcAux_prefix_le (l1 : List Char) :
    ∀ (l2 : List Char) (b : Bool), wcAux l1 b ≤ wcAux (l1 ++ l2) b := by
  induction l1 with
  | nil => intro l2 b; simp [wcAux]
  | cons c l1' ih =>
    intro l2 b
    by_cases hc : isWs c = true
    · simp only [List.cons_append, wcAux, hc, if_true]
      exact ih l2 false
    · simp only [List.cons_append, wcAux, hc, Bool.false_eq_true, if_false]
      exact Nat.add_le_add_left (ih l2 true) _

theorem pyRstrip_prefix (s : String) (chars : List Char) :
    ∃ suf, s.data = (pyRstrip s chars).data ++ suf := by
  obtain ⟨t, ht⟩ :=
    List.dropWhile_suffix (l := s.data.reverse) (fun c => chars.contains c)
  refine ⟨t.reverse, ?_⟩
  have : s.data = (t ++ (s.data.reverse.dropWhile fun c => chars.contains c)).reverse := by
    rw [ht, List.reverse_reverse]
  rw [this, List.reverse_append]
  rfl

/-- The word count of `limit_words text k` never exceeds `k`. -/
theorem wordCount_limit_words_le (t : String) (k : Nat) :
    wordCount (limit_words t k) ≤ k := by
  unfold limit_words wordCount
  have hfree : ∀ w ∈ reSplitWs (pyStrip t), ∀ c ∈ w.data, isWs c = false :=
    splitWsM_wsFree _ [] false (by simp)
  by_cases hlen : (reSplitWs (pyStrip t)).length ≤ k
  · rw [if_pos hlen]
    exact le_trans (wc_join_le _ hfree) hlen
  · rw [if_neg hlen]
    have hfree' : ∀ w ∈ (reSplitWs (pyStrip t)).take k, ∀ c ∈ w.data, isWs c = false :=
      fun w hw => hfree w (List.mem_of_mem_take hw)
    obtain ⟨suf, hsuf⟩ :=
      pyRstrip_prefix (pyJoin " " ((reSplitWs (pyStrip t)).take k))
        [',', '.', ';', ':', '!', '?']
    calc wcAux (pyRstrip (pyJoin " " ((reSplitWs (pyStrip t)).take k))
            [',', '.', ';', ':', '!', '?']).data false
        ≤ wcAux (pyJoin " " ((reSplitWs (pyStrip t)).take k)).data false := by
          rw [hsuf]
          exact wcAux_prefix_le _ _ _
      _ ≤ ((reSplitWs (pyStrip t)).take k).length := wc_join_le _ hfree'
      _ ≤ k := by
          rw [List.length_take]
          exact min_le_left _ _

theorem subNonTagAux_mem (l : List Char) :
    ∀ (b : Bool) (c : Char), c ∈ subNonTagAux l b → isTagChar c = true := by
  induction l with
  | nil => intro b c hc; simp [subNonTagAux] at hc
  | cons x xs ih =>
    intro b c hc
    simp only [subNonTagAux] at hc
    by_cases hx : isTagChar x = true
    · rw [if_pos hx] at hc
      rcases List.mem_cons.mp hc with h | h
      · subst h; exact hx
      · exact ih false c h
    · rw [if_neg hx] at hc
      cases b with
      | true =>
        simp only [if_true] at hc
        exact ih true c hc
      | false =>
        simp only [Bool.false_eq_true, if_false] at hc
        rcases List.mem_cons.mp hc with h | h
        · subst h; decide
        · exact ih true c h

/-- Every character of a sanitized tag lies in `[a-z0-9-]`. -/
theorem sanitizeTag_mem (t : String) :
    ∀ c ∈ (sanitizeTag t).data, isTagChar c = true := by
  intro c hc
  have h1 : c ∈ ((subNonTag (pyLower t).data).dropWhile (· = '-')).reverse.dropWhile (· = '-') :=
    List.mem_reverse.mp hc
  have h2 : c ∈ ((subNonTag (pyLower t).data).dropWhile (· = '-')).reverse :=
    (List.dropWhile_sublist _).mem h1
  have h3 : c ∈ (subNonTag (pyLower t).data).dropWhile (· = '-') :=
    List.mem_reverse.mp h2
  have h4 : c ∈ subNonTag (pyLower t).data := (List.dropWhile_sublist _).mem h3
  exact subNonTagAux_mem _ false c h4

theorem cleanTagsGo_length (maxTags : Nat) :
    ∀ (ts out : List String), out.length < maxTags →
      (cleanTagsGo maxTags ts out).length ≤ maxTags := by
  intro ts
  induction ts with
  | nil =>
    intro out hout
    simpa [cleanTagsGo] using Nat.le_of_lt hout
  | cons t ts' ih =>
    intro out hout
    simp only [cleanTagsGo]
    by_cases hg : (sanitizeTag t ≠ "" && !(out.contains (sanitizeTag t))) = true
    · simp only [hg, if_true]
      by_cases hm : maxTags ≤ (sanitizeTag t :: out).length
      · rw [if_pos hm]
        simpa using hout
      · rw [if_neg hm]
        exact ih _ (by simpa using Nat.lt_of_not_le hm)
    · simp only [Bool.not_eq_true] at hg
      simp only [hg, Bool.false_eq_true, if_false]
      by_cases hm : maxTags ≤ out.length
      · rw [if_pos hm]
        simpa using Nat.le_of_lt hout
      · rw [if_neg hm]
        exact ih _ (Nat.lt_of_not_le hm)

theorem cleanTagsGo_mem (maxTags : Nat) :
    ∀ (ts out : List String),
      (∀ x ∈ out, x ≠ "" ∧ ∀ c ∈ x.data, isTagChar c = true) →
      ∀ x ∈ cleanTagsGo maxTags ts out, x ≠ "" ∧ ∀ c ∈ x.data, isTagChar c = true := by
  intro ts
  induction ts with
  | nil =>
    intro out hout x hx
    exact hout x (List.mem_reverse.mp hx)
  | cons t ts' ih =>
    intro out hout x hx
    simp only [cleanTagsGo] at hx
    by_cases hg : (sanitizeTag t ≠ "" && !(out.contains (sanitizeTag t))) = true
    · rw [if_pos hg] at hx
      have hout2 : ∀ z ∈ sanitizeTag t :: out,
          z ≠ "" ∧ ∀ c ∈ z.data, isTagChar c = true := by
        intro z hz
        rcases List.mem_cons.mp hz with h | h
        · subst h
          refine ⟨?_, sanitizeTag_mem t⟩
          have := (Bool.and_eq_true _ _).mp hg
          simpa using this.1
        · exact hout z h
      by_cases hm : maxTags ≤ (sanitizeTag t :: out).length
      · rw [if_pos hm] at hx
        exact hout2 x (List.mem_reverse.mp hx)
      · rw [if_neg hm] at hx
        exact ih _ hout2 x hx
    · simp only [Bool.not_eq_true] at hg
      rw [hg] at hx
      simp only [Bool.false_eq_true, if_false] at hx
      by_cases hm : maxTags ≤ out.length
      · rw [if_pos hm] at hx
        exact hout x (List.mem_reverse.mp hx)
      · rw [if_neg hm] at hx
        exact ih _ hout x hx

theorem cleanTagsGo_nodup (maxTags : Nat) :
    ∀ (ts out : List String), out.Nodup → (cleanTagsGo maxTags ts out).Nodup := by
  intro ts
  induction ts with
  | nil =>
    intro out hout
    simpa [cleanTagsGo, List.nodup_reverse] using hout
  | cons t ts' ih =>
    intro out hout
    simp only [cleanTagsGo]
    by_cases hg : (sanitizeTag t ≠ "" && !(out.contains (sanitizeTag t))) = true
    · have hnotmem : sanitizeTag t ∉ out := by
        have hcf := (Bool.and_eq_true _ _).mp hg
        intro hm
        have : out.contains (sanitizeTag t) = false := by
          simpa using hcf.2
        rw [List.contains_eq_any_beq] at this
        simp at this
        exact this _ hm rfl
      have hout2 : (sanitizeTag t :: out).Nodup := List.Nodup.cons hnotmem hout
      rw [if_pos hg]
      by_cases hm : maxTags ≤ (sanitizeTag t :: out).length
      · rw [if_pos hm]
        exact List.nodup_reverse.mpr hout2
      · rw [if_neg hm]
        exact ih _ hout2
    · simp only [Bool.not_eq_true] at hg
      rw [hg]
      simp only [Bool.false_eq_true, if_false]
      by_cases hm : maxTags ≤ out.length
      · rw [if_pos hm]
        exact List.nodup_reverse.mpr hout
      · rw [if_neg hm]
        exact ih _ hout

/-- C4: every persisted record satisfies the normalization bounds: title at
most 8 words, summary at most 35 words, at most 5 tags, no duplicate tags,
and every tag nonempty with all characters in `[a-z0-9-]` (hence lowercase). -/
theorem C4_normalization_bounds (σ : Type) (R : PyRandom σ) (env : Env)
    (orc : Oracles) (y m d : Nat) (st : σ) (fs : FS) (r : Record)
    (hg : mdGuard fs y m d = false)
    (hl : (main R env orc y m d st fs).2.latest = some r) :
    wordCount r.concept ≤ 8 ∧ wordCount r.summary ≤ 35 ∧
    r.tags.length ≤ 5 ∧ r.tags.Nodup ∧
    (∀ t ∈ r.tags, t ≠ "" ∧ ∀ c ∈ t.data, isTagChar c = true) := by
  rw [main, hg] at hl
  simp only [Bool.false_eq_true, if_false] at hl
  rw [runBody_latest] at hl
  generalize chosenIdea R env orc (scanSlugs fs.ideas) (isoDate y m d) st = idea at hl
  obtain rfl := Option.some.inj hl
  refine ⟨wordCount_limit_words_le _ 8, wordCount_limit_words_le _ 35,
    cleanTagsGo_length 5 _ [] (by decide),
    cleanTagsGo_nodup 5 _ [] List.nodup_nil,
    cleanTagsGo_mem 5 _ [] (by simp)⟩

/-- Witness for C4 on the concrete 2025-02-01 offline run. -/
theorem C4_normalization_bounds_witness :
    mdGuard emptyFS 2025 2 1 = false ∧
    (main trivGen offlineEnv nullOracles 2025 2 1 () emptyFS).2.latest =
      some sampleRecord ∧
    (wordCount sampleRecord.concept ≤ 8 ∧ wordCount sampleRecord.summary ≤ 35 ∧
     sampleRecord.tags.length ≤ 5 ∧ sampleRecord.tags.Nodup ∧
     (∀ t ∈ sampleRecord.tags, t ≠ "" ∧ ∀ c ∈ t.data, isTagChar c = true)) :=
  ⟨by decide, by decide,
   C4_normalization_bounds Unit trivGen offlineEnv nullOracles 2025 2 1 () emptyFS
     sampleRecord (by decide) (by decide)⟩

/-! ### Substring, line and counting lemmas for idempotence (C2) -/

/-- `containsL` decides the infix relation. -/
theorem containsL_iff_infix (needle : List Char) :
    ∀ hay : List Char, containsL needle hay = true ↔ needle <:+: hay := by
  intro hay
  induction hay with
  | nil =>
    constructor
    · intro h
      have he : needle = [] := by
        simpa [containsL, List.isEmpty_iff] using h
      rw [he]
    · intro h
      have he : needle = [] := List.eq_nil_of_infix_nil h
      simp [containsL, he]
  | cons c t ih =>
    simp only [containsL, Bool.or_eq_true, List.isPrefixOf_iff_prefix, ih,
      List.infix_cons_iff]

theorem strContains_iff (hay needle : String) :
    strContains hay needle = true ↔ needle.data <:+: hay.data :=
  containsL_iff_infix needle.data hay.data

/-- Every line produced by the splitter is an infix of the split text. -/
theorem line_infix_of_splitLinesA :
    ∀ (l acc : List Char) (w : String), w ∈ splitLinesA l acc →
      w.data <:+: (acc.reverse ++ l) := by
  intro l
  induction l with
  | nil =>
    intro acc w hw
    simp only [splitLinesA, List.mem_singleton] at hw
    subst hw
    simpa using List.infix_rfl
  | cons c cs ih =>
    intro acc w hw
    simp only [splitLinesA] at hw
    by_cases hc : c = '\n'
    · rw [if_pos hc] at hw
      rcases List.mem_cons.mp hw with h | h
      · subst h
        exact (List.prefix_append acc.reverse (c :: cs)).isInfix
      · by_cases he : cs.isEmpty
        · rw [if_pos he] at h
          simp at h
        · rw [if_neg he] at h
          have := ih [] w h
          simp only [List.reverse_nil, List.nil_append] at this
          exact this.trans ⟨acc.reverse ++ [c], [], by simp⟩
    · rw [if_neg hc] at hw
      have := ih (c :: acc) w hw
      simpa [List.append_assoc] using this

theorem infix_of_mem_splitLines (s : String) (w : String) (hw : w ∈ splitLines s) :
    w.data <:+: s.data := by
  unfold splitLines at hw
  by_cases he : s.data.isEmpty
  · rw [if_pos he] at hw
    simp at hw
  · rw [if_neg he] at hw
    simpa using line_infix_of_splitLinesA s.data [] w hw

/-- An infix of `a ++ [c]` avoiding `c` is an infix of `a`. -/
theorem infix_append_singleton {n a : List Char} {c : Char}
    (h : n <:+: a ++ [c]) (hc : c ∉ n) : n <:+: a := by
  obtain ⟨s, t, hst⟩ := h
  rcases List.eq_nil_or_concat t with rfl | ⟨t', c', rfl⟩
  · rw [List.append_nil] at hst
    cases hn : n with
    | nil => exact List.nil_infix
    | cons y ys =>
      exfalso
      apply hc
      have hlast : (a ++ [c]).getLast? = some c := List.getLast?_concat a
      rw [← hst] at hlast
      rw [List.getLast?_append_of_ne_nil s (by simp [hn])] at hlast
      exact List.mem_of_mem_getLast? hlast
  · have hst2 : (s ++ n ++ t') ++ [c'] = a ++ [c] := by
      rw [← hst]
      simp [List.concat_eq_append, List.append_assoc]
    obtain ⟨hmain, _⟩ := List.append_inj' hst2 rfl
    exact ⟨s, t', hmain⟩

/-- Splitting at an inner newline splits the surrounding pieces. -/
theorem splitLinesA_append_newline :
    ∀ (xs acc ys : List Char),
      splitLinesA (xs ++ '\n' :: ys) acc =
        splitLinesA (xs ++ ['\n']) acc ++
          (if ys.isEmpty then [] else splitLinesA ys []) := by
  intro xs
  induction xs with
  | nil =>
    intro acc ys
    rfl
  | cons c cs ih =>
    intro acc ys
    by_cases hc : c = '\n'
    · subst hc
      have hne1 : (cs ++ '\n' :: ys).isEmpty = false := by
        cases cs <;> rfl
      have hne2 : (cs ++ ['\n']).isEmpty = false := by
        cases cs <;> rfl
      show String.mk acc.reverse ::
          (if (cs ++ '\n' :: ys).isEmpty then [] else splitLinesA (cs ++ '\n' :: ys) []) =
        (String.mk acc.reverse ::
          (if (cs ++ ['\n']).isEmpty then [] else splitLinesA (cs ++ ['\n']) [])) ++
        (if ys.isEmpty then [] else splitLinesA ys [])
      rw [hne1, hne2]
      simp only [Bool.false_eq_true, if_false, List.cons_append]
      rw [ih [] ys]
    · simp only [List.cons_append, splitLinesA, if_neg hc]
      exact ih (c :: acc) ys

/-- A newline-free piece followed by a newline yields exactly one line. -/
theorem splitLinesA_no_newline_trail :
    ∀ (w acc : List Char), '\n' ∉ w →
      splitLinesA (w ++ ['\n']) acc = [String.mk (acc.reverse ++ w)] := by
  intro w
  induction w with
  | nil =>
    intro acc _
    simp [splitLinesA]
  | cons c cs ih =>
    intro acc hw
    have hc : ¬ c = '\n' := fun h => hw (h ▸ List.mem_cons_self c cs)
    simp only [List.cons_append, splitLinesA, if_neg hc]
    show splitLinesA (cs ++ ['\n']) (c :: acc) = [String.mk (acc.reverse ++ c :: cs)]
    rw [ih (c :: acc) (fun h => hw (List.mem_cons_of_mem c h))]
    simp

/-- Joining newline-free lines with `"\n"` and appending a final newline
splits back into exactly those lines. -/
theorem splitLines_join_newline :
    ∀ ls : List String, ls ≠ [] → (∀ x ∈ ls, '\n' ∉ x.data) →
      splitLinesA ((pyJoin "\n" ls).data ++ ['\n']) [] = ls := by
  intro ls
  induction ls with
  | nil => intro h; exact absurd rfl h
  | cons x ls' ih =>
    intro _ hnl
    cases ls' with
    | nil =>
      rw [show pyJoin "\n" [x] = x from rfl]
      rw [splitLinesA_no_newline_trail x.data [] (hnl x (List.mem_cons_self x []))]
      simp
    | cons y r =>
      rw [pyJoin_cons]
      have hdata : (x ++ "\n" ++ pyJoin "\n" (y :: r)).data ++ ['\n'] =
          x.data ++ '\n' :: ((pyJoin "\n" (y :: r)).data ++ ['\n']) := by
        rw [String.data_append, String.data_append, List.append_assoc,
          List.append_assoc]
        rfl
      rw [hdata]
      rw [splitLinesA_append_newline x.data []
        ((pyJoin "\n" (y :: r)).data ++ ['\n'])]
      have hne : ((pyJoin "\n" (y :: r)).data ++ ['\n']).isEmpty = false := by
        cases h : (pyJoin "\n" (y :: r)).data <;> simp
      rw [hne]
      simp only [Bool.false_eq_true, if_false]
      rw [splitLinesA_no_newline_trail x.data []
        (hnl x (List.mem_cons_self x (y :: r)))]
      rw [ih (by simp) (fun z hz => hnl z (List.mem_cons_of_mem x hz))]
      simp

/-! ### No-newline facts about the persisted fields -/

theorem mem_pyJoin_data (sep : String) :
    ∀ (ls : List String) (c : Char), c ∈ (pyJoin sep ls).data →
      c ∈ sep.data ∨ ∃ w ∈ ls, c ∈ w.data := by
  intro ls
  induction ls with
  | nil => intro c hc; simp [pyJoin] at hc
  | cons x ls' ih =>
    intro c hc
    cases ls' with
    | nil =>
      right
      exact ⟨x, List.mem_cons_self x [], hc⟩
    | cons y r =>
      rw [pyJoin_cons, String.data_append, String.data_append] at hc
      rcases List.mem_append.mp hc with h1 | h2
      · rcases List.mem_append.mp h1 with h3 | h4
        · exact Or.inr ⟨x, List.mem_cons_self x (y :: r), h3⟩
        · exact Or.inl h4
      · rcases ih c h2 with h | ⟨w, hw, hcw⟩
        · exact Or.inl h
        · exact Or.inr ⟨w, List.mem_cons_of_mem x hw, hcw⟩

theorem natStrAux_digits :
    ∀ (fuel n : Nat) (c : Char), c ∈ natStrAux fuel n →
      ∃ k, k < 10 ∧ c = digitChar k := by
  intro fuel
  induction fuel with
  | zero => intro n c hc; simp [natStrAux] at hc
  | succ fuel ih =>
    intro n c hc
    simp only [natStrAux] at hc
    by_cases hn : n < 10
    · rw [if_pos hn] at hc
      simp only [List.mem_singleton] at hc
      exact ⟨n, hn, hc⟩
    · rw [if_neg hn] at hc
      rcases List.mem_append.mp hc with h | h
      · exact ih (n / 10) c h
      · simp only [List.mem_singleton] at h
        exact ⟨n % 10, Nat.mod_lt n (by omega), h⟩

theorem digitChar_ne_nl (k : Nat) (hk : k < 10) : digitChar k ≠ '\n' := by
  interval_cases k <;> decide

theorem noNl_natStr (n : Nat) : '\n' ∉ (natStr n).data := by
  intro h
  obtain ⟨k, hk, hc⟩ := natStrAux_digits (n + 1) n '\n' h
  exact digitChar_ne_nl k hk hc.symm

theorem noNl_append (a b : String) (ha : '\n' ∉ a.data) (hb : '\n' ∉ b.data) :
    '\n' ∉ (a ++ b).data := by
  rw [String.data_append]
  intro h
  rcases List.mem_append.mp h with h | h
  · exact ha h
  · exact hb h

theorem noNl_pad2 (n : Nat) : '\n' ∉ (pad2 n).data := by
  unfold pad2
  by_cases h : n < 10
  · rw [if_pos h]
    exact noNl_append _ _ (by decide) (noNl_natStr n)
  · rw [if_neg h]
    exact noNl_natStr n

theorem noNl_pad4 (n : Nat) : '\n' ∉ (pad4 n).data := by
  unfold pad4
  by_cases h1 : n < 10
  · rw [if_pos h1]; exact noNl_append _ _ (by decide) (noNl_natStr n)
  · rw [if_neg h1]
    by_cases h2 : n < 100
    · rw [if_pos h2]; exact noNl_append _ _ (by decide) (noNl_natStr n)
    · rw [if_neg h2]
      by_cases h3 : n < 1000
      · rw [if_pos h3]; exact noNl_append _ _ (by decide) (noNl_natStr n)
      · rw [if_neg h3]; exact noNl_natStr n

theorem noNl_monthStr (y m : Nat) : '\n' ∉ (monthStr y m).data :=
  noNl_append _ _ (noNl_append _ _ (noNl_pad4 y) (by decide)) (noNl_pad2 m)

theorem noNl_isoDate (y m d : Nat) : '\n' ∉ (isoDate y m d).data :=
  noNl_append _ _ (noNl_append _ _ (noNl_monthStr y m) (by decide)) (noNl_pad2 d)

theorem noNl_limit_words (t : String) (k : Nat) : '\n' ∉ (limit_words t k).data := by
  have hfree : ∀ w ∈ reSplitWs (pyStrip t), ∀ c ∈ w.data, isWs c = false :=
    splitWsM_wsFree _ [] false (by simp)
  have hjoin : ∀ ts : List String,
      (∀ w ∈ ts, ∀ c ∈ w.data, isWs c = false) → '\n' ∉ (pyJoin " " ts).data := by
    intro ts hts h
    rcases mem_pyJoin_data " " ts '\n' h with h1 | ⟨w, hw, hcw⟩
    · simp at h1
    · have := hts w hw '\n' hcw
      simp [isWs] at this
  unfold limit_words
  by_cases hlen : (reSplitWs (pyStrip t)).length ≤ k
  · rw [if_pos hlen]
    exact hjoin _ hfree
  · rw [if_neg hlen]
    intro h
    obtain ⟨suf, hsuf⟩ :=
      pyRstrip_prefix (pyJoin " " ((reSplitWs (pyStrip t)).take k))
        [',', '.', ';', ':', '!', '?']
    have : '\n' ∈ (pyJoin " " ((reSplitWs (pyStrip t)).take k)).data := by
      rw [hsuf]
      exact List.mem_append_left _ h
    exact hjoin _ (fun w hw => hfree w (List.mem_of_mem_take hw)) this

theorem collapseDashAux_mem :
    ∀ (l : List Char) (b : Bool) (c : Char), c ∈ collapseDashAux l b →
      c ∈ l ∨ c = '-' := by
  intro l
  induction l with
  | nil => intro b c hc; simp [collapseDashAux] at hc
  | cons x xs ih =>
    intro b c hc
    simp only [collapseDashAux] at hc
    by_cases hx : x = '-'
    · rw [if_pos hx] at hc
      cases b with
      | true =>
        simp only [if_true] at hc
        rcases ih true c hc with h | h
        · exact Or.inl (List.mem_cons_of_mem x h)
        · exact Or.inr h
      | false =>
        simp only [Bool.false_eq_true, if_false] at hc
        rcases List.mem_cons.mp hc with h | h
        · exact Or.inr h
        · rcases ih true c h with h2 | h2
          · exact Or.inl (List.mem_cons_of_mem x h2)
          · exact Or.inr h2
    · rw [if_neg hx] at hc
      rcases List.mem_cons.mp hc with h | h
      · exact Or.inl (h ▸ List.mem_cons_self x xs)
      · rcases ih false c h with h2 | h2
        · exact Or.inl (List.mem_cons_of_mem x h2)
        · exact Or.inr h2

/-- Every character of a slug lies in `[a-z0-9-]`. -/
theorem slugify_mem_tagChar (s : String) :
    ∀ c ∈ (slugify s).data, isTagChar c = true := by
  intro c hc
  have h1 : c ∈ collapseDash (subNonTag (pyLower s).data) := by
    have h2 := List.mem_reverse.mp hc
    have h3 := (List.dropWhile_sublist (· = '-')).mem h2
    have h4 := List.mem_reverse.mp h3
    exact (List.dropWhile_sublist (· = '-')).mem h4
  rcases collapseDashAux_mem _ false c h1 with h | h
  · exact subNonTagAux_mem _ false c h
  · rw [h]; decide

theorem noNl_day_theme (dt : Date) : '\n' ∉ (day_theme dt).data := by
  unfold day_theme
  have h7 : (dayOfYear dt - 1) % THEMES.length < THEMES.length :=
    Nat.mod_lt _ (by decide)
  rw [List.getD_eq_getElem THEMES "" h7]
  have hmem := List.getElem_mem h7
  revert hmem
  generalize THEMES[(dayOfYear dt - 1) % THEMES.length] = x
  intro hmem
  fin_cases hmem <;> decide

/-! ### Markdown-content and lookup lemmas -/

theorem infix_of_mem_pyJoin (sep : String) :
    ∀ (ls : List String) (w : String), w ∈ ls →
      w.data <:+: (pyJoin sep ls).data := by
  intro ls
  induction ls with
  | nil => intro w hw; simp at hw
  | cons x ls' ih =>
    intro w hw
    cases ls' with
    | nil =>
      rcases List.mem_cons.mp hw with h | h
      · subst h; exact List.infix_rfl
      · simp at h
    | cons y r =>
      rw [pyJoin_cons, String.data_append, String.data_append]
      rcases List.mem_cons.mp hw with h | h
      · subst h
        exact ((List.prefix_append w.data sep.data).trans
          (List.prefix_append _ _)).isInfix
      · exact (ih w h).trans ⟨x.data ++ sep.data, [], by simp⟩

theorem lookupFile_append_new (l : List (String × String)) (name c : String)
    (h : lookupFile l name = none) :
    lookupFile (l ++ [(name, c)]) name = some c := by
  induction l with
  | nil => simp [lookupFile, List.find?]
  | cons p rest ih =>
    by_cases hp : p.1 = name
    · exfalso
      have : lookupFile (p :: rest) name = some p.2 := by
        simp [lookupFile, List.find?_cons, hp]
      rw [this] at h
      cases h
    · have hrest : lookupFile rest name = none := by
        have hpf : (decide (p.1 = name)) = false := by simp [hp]
        simpa [lookupFile, List.find?_cons, hpf] using h
      have hpf : (decide (p.1 = name)) = false := by simp [hp]
      simpa [lookupFile, List.find?_cons, hpf] using ih hrest

theorem lookupFile_update (l : List (String × String)) (name c : String)
    (h : (lookupFile l name).isSome) :
    lookupFile (updateFile l name c) name = some c := by
  induction l with
  | nil => simp [lookupFile, List.find?] at h
  | cons p rest ih =>
    by_cases hp : p.1 = name
    · simp [updateFile, hp, lookupFile, List.find?_cons]
    · have hpf : (decide (p.1 = name)) = false := by simp [hp]
      have hrest : (lookupFile rest name).isSome := by
        simpa [lookupFile, List.find?_cons, hpf] using h
      simpa [updateFile, hp, lookupFile, List.find?_cons, hpf] using ih hrest

/-- The heading line of an entry, as built by `entryLines`. -/
theorem heading_ne_empty (rec : Record) :
    ("### " ++ rec.date ++ " — " ++ rec.concept) ≠ "" := by
  intro h
  have hdata := congrArg String.data h
  rw [String.data_append, String.data_append, String.data_append] at hdata
  simp at hdata

theorem heading_mem_entryLines (rec : Record) :
    ("### " ++ rec.date ++ " — " ++ rec.concept) ∈ entryLines rec := by
  unfold entryLines
  refine List.mem_filter.mpr ⟨List.mem_cons_self _ _, ?_⟩
  simp [heading_ne_empty rec]

/-- The run date is a substring of the entry heading. -/
theorem date_infix_heading (rec : Record) :
    rec.date.data <:+: ("### " ++ rec.date ++ " — " ++ rec.concept).data := by
  refine ⟨"### ".data, (" — " ++ rec.concept).data, ?_⟩
  rw [String.data_append, String.data_append, String.data_append,
    String.data_append]
  simp [List.append_assoc]

/-- The content written for the month always contains the record's date. -/
theorem newMdContent_contains (existing : Option String) (monthS : String)
    (rec : Record) :
    strContains (newMdContent existing monthS rec) rec.date = true := by
  rw [strContains_iff]
  have hhead := (date_infix_heading rec).trans
    (infix_of_mem_pyJoin "\n" (entryLines rec) _ (heading_mem_entryLines rec))
  cases existing with
  | none =>
    have hmem : ("### " ++ rec.date ++ " — " ++ rec.concept) ∈
        (["# Idea Log — " ++ monthS, "",
          "Daily repository ideas (generated automatically).", ""] ++ entryLines rec) :=
      List.mem_append_right _ (heading_mem_entryLines rec)
    have h1 := (date_infix_heading rec).trans
      (infix_of_mem_pyJoin "\n" _ _ hmem)
    show rec.date.data <:+: (pyJoin "\n" _ ++ "\n").data
    rw [String.data_append]
    exact h1.trans ⟨[], ['\n'], by simp⟩
  | some old =>
    show rec.date.data <:+: (old ++ "\n" ++ pyJoin "\n" (entryLines rec) ++ "\n").data
    rw [String.data_append, String.data_append]
    exact hhead.trans ⟨(old ++ "\n").data, "\n".data, by simp [List.append_assoc]⟩

/-- The `ideas` component written by `runBody`. -/
theorem runBody_ideas {σ : Type} (R : PyRandom σ) (env : Env) (orc : Oracles)
    (y m d : Nat) (st : σ) (fs : FS) :
    (runBody R env orc y m d st fs).2.ideas =
      (match lookupFile fs.ideas (monthStr y m ++ ".md") with
       | none => fs.ideas ++ [(monthStr y m ++ ".md",
           newMdContent none (monthStr y m)
             (mkRecord env y m d
               (chosenIdea R env orc (scanSlugs fs.ideas) (isoDate y m d) st)))]
       | some old => updateFile fs.ideas (monthStr y m ++ ".md")
           (newMdContent (some old) (monthStr y m)
             (mkRecord env y m d
               (chosenIdea R env orc (scanSlugs fs.ideas) (isoDate y m d) st)))) := rfl

/-- The JSONL component written by `runBody`. -/
theorem runBody_jsonl {σ : Type} (R : PyRandom σ) (env : Env) (orc : Oracles)
    (y m d : Nat) (st : σ) (fs : FS) :
    (runBody R env orc y m d st fs).2.jsonl =
      (if jsonlHasToday fs.jsonl (isoDate y m d) then fs.jsonl
       else fs.jsonl ++ [some (mkRecord env y m d
         (chosenIdea R env orc (scanSlugs fs.ideas) (isoDate y m d) st))]) := rfl

theorem runBody_fst {σ : Type} (R : PyRandom σ) (env : Env) (orc : Oracles)
    (y m d : Nat) (st : σ) (fs : FS) :
    (runBody R env orc y m d st fs).1 = 0 := rfl

/-- After a non-skipped run the month file contains today's date, so the
idempotence guard fires on any re-run. -/
theorem mdGuard_runBody {σ : Type} (R : PyRandom σ) (env : Env) (orc : Oracles)
    (y m d : Nat) (st : σ) (fs : FS) :
    mdGuard (runBody R env orc y m d st fs).2 y m d = true := by
  unfold mdGuard
  rw [runBody_ideas]
  cases hex : lookupFile fs.ideas (monthStr y m ++ ".md") with
  | none =>
    rw [lookupFile_append_new _ _ _ hex]
    have := newMdContent_contains none (monthStr y m)
      (mkRecord env y m d (chosenIdea R env orc (scanSlugs fs.ideas) (isoDate y m d) st))
    simpa using this
  | some old =>
    rw [lookupFile_update _ _ _ (by rw [hex]; rfl)]
    have := newMdContent_contains (some old) (monthStr y m)
      (mkRecord env y m d (chosenIdea R env orc (scanSlugs fs.ideas) (isoDate y m d) st))
    simpa using this

/-! ### Entry and JSONL counting -/

/-- Does a JSONL line hold a (well-formed) record for `today`? -/
def isTodayLine (today : String) : Option Record → Bool
  | some r => r.date = today
  | none => false

/-- Number of well-formed JSONL lines for `today`. -/
def jsonlTodayCount (lines : List (Option Record)) (today : String) : Nat :=
  (lines.filter (isTodayLine today)).length

/-- Does a markdown line start with `### <today>`? -/
def hpLine (today : String) (l : String) : Bool :=
  ("### " ++ today).data.isPrefixOf l.data

/-- Number of markdown lines that start this day's entry heading. -/
def entryCount (content today : String) : Nat :=
  ((splitLines content).filter (hpLine today)).length

theorem jsonlHasToday_false_of_count_zero (today : String) :
    ∀ lines : List (Option Record), jsonlTodayCount lines today = 0 →
      jsonlHasToday lines today = false := by
  intro lines
  induction lines with
  | nil => intro _; rfl
  | cons o rest ih =>
    intro h
    cases o with
    | none => rfl
    | some r =>
      by_cases hr : r.date = today
      · exfalso
        unfold jsonlTodayCount at h
        rw [List.filter_cons] at h
        have : isTodayLine today (some r) = true := by simp [isTodayLine, hr]
        rw [this] at h
        simp at h
      · have hrest : jsonlTodayCount rest today = 0 := by
          unfold jsonlTodayCount at h ⊢
          rw [List.filter_cons] at h
          have : isTodayLine today (some r) = false := by simp [isTodayLine, hr]
          rwa [this] at h
        simp only [jsonlHasToday, hr, if_false]
        exact ih hrest

theorem hpLine_prefix_shape (today : String) :
    ("### " ++ today).data = '#' :: '#' :: '#' :: ' ' :: today.data := by
  rw [String.data_append]
  rfl

/-- A line whose first character is not `#` never matches the heading test. -/
theorem hpLine_false_of_head (today : String) (l : String)
    (h : l.data.head? ≠ some '#') : hpLine today l = false := by
  unfold hpLine
  rw [hpLine_prefix_shape]
  cases hl : l.data with
  | nil => rfl
  | cons b l' =>
    have hb : ¬ ('#' = b) := by
      intro hbe
      apply h
      rw [hl, ← hbe]
      rfl
    have hbf : (('#' : Char) == b) = false := beq_eq_false_iff_ne.mpr hb
    simp [List.isPrefixOf, hbf]

/-- The month-header line starts `# ` and never matches the heading test. -/
theorem hpLine_false_header (today s : String) :
    hpLine today ("# Idea Log — " ++ s) = false := by
  unfold hpLine
  rw [hpLine_prefix_shape]
  have h2 : ("# Idea Log — " ++ s).data =
      '#' :: ' ' :: ("Idea Log — ".data ++ s.data) := by
    rw [String.data_append]
    rfl
  rw [h2]
  have hb : (('#' : Char) == ' ') = false := by decide
  simp [List.isPrefixOf, hb]

theorem hpLine_true_heading (rec : Record) :
    hpLine rec.date ("### " ++ rec.date ++ " — " ++ rec.concept) = true := by
  unfold hpLine
  rw [ List.isPrefixOf_iff_prefix]
  have : ("### " ++ rec.date ++ " — " ++ rec.concept) =
      ("### " ++ rec.date) ++ (" — " ++ rec.concept) := by
    rw [String.append_assoc]
  rw [this, String.data_append]
  exact List.prefix_append _ _

/-- `head?` of the data of a literal-headed append. -/
theorem head_append_lit (p s : String) (c : Char) (hp : p.data.head? = some c) :
    (p ++ s).data.head? = some c := by
  rw [String.data_append]
  cases hl : p.data with
  | nil => rw [hl] at hp; cases hp
  | cons b l' =>
    rw [hl] at hp
    simpa using hp

/-- Exactly one line of the entry block matches the heading test. -/
theorem countP_entryLines (rec : Record) :
    (entryLines rec).countP (hpLine rec.date) = 1 := by
  unfold entryLines
  rw [List.countP_filter]
  simp only [List.countP_cons, List.countP_nil]
  have h0 : hpLine rec.date "" = false := hpLine_false_of_head _ _ (by simp)
  have htheme : hpLine rec.date ("Theme: `" ++ rec.theme ++ "`") = false := by
    refine hpLine_false_of_head _ _ ?_
    have : (("Theme: `" ++ rec.theme) ++ "`").data.head? = some 'T' :=
      head_append_lit _ _ 'T' (head_append_lit _ _ 'T' rfl)
    rw [this]
    decide
  have hrepo : hpLine rec.date ("Repo: `" ++ rec.repo_name ++ "`") = false := by
    refine hpLine_false_of_head _ _ ?_
    have : (("Repo: `" ++ rec.repo_name) ++ "`").data.head? = some 'R' :=
      head_append_lit _ _ 'R' (head_append_lit _ _ 'R' rfl)
    rw [this]
    decide
  have htags : hpLine rec.date
      (if rec.tags ≠ [] then
        "Tags: " ++ pyJoin ", " (rec.tags.map (fun t => "`" ++ t ++ "`"))
       else "") = false := by
    by_cases ht : rec.tags ≠ []
    · rw [if_pos ht]
      refine hpLine_false_of_head _ _ ?_
      have : ("Tags: " ++ pyJoin ", " (rec.tags.map (fun t => "`" ++ t ++ "`"))).data.head?
          = some 'T' := head_append_lit _ _ 'T' rfl
      rw [this]
      decide
    · rw [if_neg ht]
      exact h0
  have hsum : hpLine rec.date
      (if rec.summary ≠ "" then "Summary: " ++ rec.summary else "") = false := by
    by_cases hs : rec.summary ≠ ""
    · rw [if_pos hs]
      refine hpLine_false_of_head _ _ ?_
      have : ("Summary: " ++ rec.summary).data.head? = some 'S' :=
        head_append_lit _ _ 'S' rfl
      rw [this]
      decide
    · rw [if_neg hs]
      exact h0
  rw [hpLine_true_heading rec, h0, htheme, hrepo, htags, hsum]
  simp [heading_ne_empty rec]

/-- No header line matches the heading test. -/
theorem countP_headerLines (today monthS : String) :
    (["# Idea Log — " ++ monthS, "",
      "Daily repository ideas (generated automatically).", ""]).countP
        (hpLine today) = 0 := by
  simp only [List.countP_cons, List.countP_nil]
  have h0 : hpLine today "" = false := hpLine_false_of_head _ _ (by simp)
  have hD : hpLine today "Daily repository ideas (generated automatically)." = false := by
    refine hpLine_false_of_head _ _ ?_
    decide
  rw [hpLine_false_header today monthS, h0, hD]
  simp

/-! ### Newline-freedom of all lines written by a run -/

theorem noNl_normSlug (idea : Idea) : '\n' ∉ (normSlug idea).data := by
  unfold normSlug
  by_cases hs : slugify (normTitle idea) = ""
  · simp only [hs, if_pos rfl]
    decide
  · simp only [if_neg hs]
    intro h
    exact absurd (slugify_mem_tagChar _ '\n' h) (by decide)

set_option maxHeartbeats 2000000 in
theorem noNl_entryLines (env : Env) (y m d : Nat) (idea : Idea) :
    ∀ x ∈ entryLines (mkRecord env y m d idea), '\n' ∉ x.data := by
  intro x hx
  have hdate : '\n' ∉ (mkRecord env y m d idea).date.data := noNl_isoDate y m d
  have hconcept : '\n' ∉ (mkRecord env y m d idea).concept.data :=
    noNl_limit_words _ 8
  have hsummary : '\n' ∉ (mkRecord env y m d idea).summary.data :=
    noNl_limit_words _ 35
  have htheme : '\n' ∉ (mkRecord env y m d idea).theme.data := noNl_day_theme _
  have hslug : '\n' ∉ (mkRecord env y m d idea).slug.data := noNl_normSlug idea
  have hrepo : '\n' ∉ (mkRecord env y m d idea).repo_name.data :=
    noNl_append _ _ (noNl_append _ _ (noNl_normSlug idea) (by decide)) (noNl_isoDate y m d)
  have htags : ∀ t ∈ (mkRecord env y m d idea).tags, '\n' ∉ t.data := by
    intro t ht hmem
    have := (cleanTagsGo_mem 5 idea.tags [] (by simp) t ht).2 '\n' hmem
    exact absurd this (by decide)
  have hraw := (List.mem_filter.mp hx).1
  rcases List.mem_cons.mp hraw with h | hraw
  · subst h
    exact noNl_append _ _ (noNl_append _ _ (noNl_append _ _ (by decide) hdate)
      (by decide)) hconcept
  rcases List.mem_cons.mp hraw with h | hraw
  · subst h; simp
  rcases List.mem_cons.mp hraw with h | hraw
  · subst h
    exact noNl_append _ _ (noNl_append _ _ (by decide) htheme) (by decide)
  rcases List.mem_cons.mp hraw with h | hraw
  · subst h
    exact noNl_append _ _ (noNl_append _ _ (by decide) hrepo) (by decide)
  rcases List.mem_cons.mp hraw with h | hraw
  · subst h
    by_cases ht : (mkRecord env y m d idea).tags ≠ []
    · rw [if_pos ht]
      refine noNl_append _ _ (by decide) ?_
      intro hmem
      rcases mem_pyJoin_data ", " _ '\n' hmem with h1 | ⟨w, hw, hcw⟩
      · simp at h1
      · obtain ⟨t, htmem, rfl⟩ := List.mem_map.mp hw
        have : '\n' ∈ ("`" ++ t ++ "`").data := hcw
        rcases List.mem_append.mp (by
            rw [String.data_append] at this
            exact this) with h2 | h3
        · rcases List.mem_append.mp (by
              rw [String.data_append] at h2
              exact h2) with h4 | h5
          · simp at h4
          · exact htags t htmem h5
        · simp at h3
    · rw [if_neg ht]; simp
  rcases List.mem_cons.mp hraw with h | hraw
  · subst h; simp
  rcases List.mem_cons.mp hraw with h | hraw
  · subst h
    by_cases hs : (mkRecord env y m d idea).summary ≠ ""
    · rw [if_pos hs]
      exact noNl_append _ _ (by decide) hsummary
    · rw [if_neg hs]; simp
  rcases List.mem_cons.mp hraw with h | hraw
  · subst h; simp
  · simp at hraw

theorem noNl_headerLines_str (monthS : String) (hm : '\n' ∉ monthS.data) :
    ∀ x ∈ (["# Idea Log — " ++ monthS, "",
      "Daily repository ideas (generated automatically).", ""] : List String),
      '\n' ∉ x.data := by
  intro x hx
  rcases List.mem_cons.mp hx with h | hx
  · subst h
    exact noNl_append _ _ (by decide) hm
  rcases List.mem_cons.mp hx with h | hx
  · subst h; simp
  rcases List.mem_cons.mp hx with h | hx
  · subst h; decide
  rcases List.mem_cons.mp hx with h | hx
  · subst h; simp
  · simp at hx

/-! ### Exactly-one-entry lemmas -/

theorem entryCount_create (monthS : String) (rec : Record)
    (hm : '\n' ∉ monthS.data)
    (hnl : ∀ x ∈ entryLines rec, '\n' ∉ x.data) :
    entryCount (newMdContent none monthS rec) rec.date = 1 := by
  unfold entryCount newMdContent
  have hdata : (pyJoin "\n"
      (["# Idea Log — " ++ monthS, "",
        "Daily repository ideas (generated automatically).", ""] ++
        entryLines rec) ++ "\n").data =
      (pyJoin "\n"
        (["# Idea Log — " ++ monthS, "",
          "Daily repository ideas (generated automatically).", ""] ++
          entryLines rec)).data ++ ['\n'] := by
    rw [String.data_append]
  rw [show splitLines (pyJoin "\n"
      (["# Idea Log — " ++ monthS, "",
        "Daily repository ideas (generated automatically).", ""] ++
        entryLines rec) ++ "\n") =
      splitLinesA ((pyJoin "\n"
        (["# Idea Log — " ++ monthS, "",
          "Daily repository ideas (generated automatically).", ""] ++
          entryLines rec)).data ++ ['\n']) [] from by
    unfold splitLines
    rw [hdata]
    rw [if_neg (by
      cases h : (pyJoin "\n"
        (["# Idea Log — " ++ monthS, "",
          "Daily repository ideas (generated automatically).", ""] ++
          entryLines rec)).data <;> simp)]]
  rw [splitLines_join_newline _ (by simp) (by
    intro z hz
    rcases List.mem_append.mp hz with h | h
    · exact noNl_headerLines_str monthS hm z h
    · exact hnl z h)]
  rw [← List.countP_eq_length_filter, List.countP_append,
    countP_headerLines, countP_entryLines]

theorem date_infix_of_hpLine (today l : String) (h : hpLine today l = true) :
    today.data <:+: l.data := by
  unfold hpLine at h
  have hpre := List.isPrefixOf_iff_prefix.mp h
  have hsuf : today.data <:+ ("### " ++ today).data := by
    rw [String.data_append]
    exact ⟨"### ".data, rfl⟩
  exact hsuf.isInfix.trans hpre.isInfix

theorem countP_oldLines_zero (old today : String) (hnl : '\n' ∉ today.data)
    (hold : strContains old today = false) :
    (splitLinesA (old.data ++ ['\n']) []).countP (hpLine today) = 0 := by
  rw [List.countP_eq_zero]
  intro l hl
  intro hp
  have h1 : today.data <:+: l.data := date_infix_of_hpLine today l hp
  have h2 : l.data <:+: old.data ++ ['\n'] := by
    have := line_infix_of_splitLinesA (old.data ++ ['\n']) [] l hl
    simpa using this
  have h3 : today.data <:+: old.data := infix_append_singleton (h1.trans h2) hnl
  rw [← strContains_iff old today] at h3
  rw [hold] at h3
  cases h3

theorem entryCount_append (rec : Record) (monthS old : String)
    (hnl : ∀ x ∈ entryLines rec, '\n' ∉ x.data)
    (hdnl : '\n' ∉ rec.date.data)
    (hold : strContains old rec.date = false) :
    entryCount (newMdContent (some old) monthS rec) rec.date = 1 := by
  unfold entryCount newMdContent
  have hdata : (old ++ "\n" ++ pyJoin "\n" (entryLines rec) ++ "\n").data =
      old.data ++ '\n' :: ((pyJoin "\n" (entryLines rec)).data ++ ['\n']) := by
    rw [String.data_append, String.data_append, String.data_append,
      List.append_assoc, List.append_assoc]
    rfl
  rw [show splitLines (old ++ "\n" ++ pyJoin "\n" (entryLines rec) ++ "\n") =
      splitLinesA (old.data ++ '\n' ::
        ((pyJoin "\n" (entryLines rec)).data ++ ['\n'])) [] from by
    unfold splitLines
    rw [hdata]
    rw [if_neg (by cases h : old.data <;> simp)]]
  rw [splitLinesA_append_newline old.data []
    ((pyJoin "\n" (entryLines rec)).data ++ ['\n'])]
  rw [if_neg (by
    cases h : (pyJoin "\n" (entryLines rec)).data <;> simp)]
  rw [splitLines_join_newline _ (List.ne_nil_of_mem (heading_mem_entryLines rec)) hnl]
  rw [← List.countP_eq_length_filter, List.countP_append,
    countP_oldLines_zero old _ hdnl hold, countP_entryLines]

/-- Number of this day's entry headings in the month markdown file. -/
def entryCountFS (fs : FS) (y m d : Nat) : Nat :=
  match lookupFile fs.ideas (monthStr y m ++ ".md") with
  | some c => entryCount c (isoDate y m d)
  | none => 0

/-- C2: running `main` twice for the same date is idempotent — the second run
exits 0 and writes nothing; a run whose month file already mentions today is
a no-op; the secondary guard skips the JSONL append when a well-formed record
for today is already found there; and a first run from a state with no entry
for today produces exactly one markdown entry heading and exactly one JSONL
record for today. -/
theorem C2_idempotence (σ : Type) (R : PyRandom σ) (env : Env) (orc : Oracles)
    (y m d : Nat) (st st' : σ) (fs : FS) :
    main R env orc y m d st' ((main R env orc y m d st fs).2) =
      (0, (main R env orc y m d st fs).2) ∧
    (mdGuard fs y m d = true → main R env orc y m d st fs = (0, fs)) ∧
    (jsonlHasToday fs.jsonl (isoDate y m d) = true →
      (main R env orc y m d st fs).2.jsonl = fs.jsonl) ∧
    (mdGuard fs y m d = false → jsonlTodayCount fs.jsonl (isoDate y m d) = 0 →
      entryCountFS (main R env orc y m d st fs).2 y m d = 1 ∧
      jsonlTodayCount (main R env orc y m d st fs).2.jsonl (isoDate y m d) = 1) := by
  have hguardrun : ∀ (st0 : σ), mdGuard fs y m d = true →
      main R env orc y m d st0 fs = (0, fs) := by
    intro st0 h
    rw [main, if_pos h]
  refine ⟨?_, hguardrun st, ?_, ?_⟩
  · by_cases hg : mdGuard fs y m d = true
    · rw [hguardrun st hg]
      exact hguardrun st' hg
    · have h1 : main R env orc y m d st fs = runBody R env orc y m d st fs := by
        rw [main, if_neg hg]
      rw [h1, main, if_pos (mdGuard_runBody R env orc y m d st fs)]
  · intro hj
    by_cases hg : mdGuard fs y m d = true
    · rw [hguardrun st hg]
    · rw [main, if_neg hg, runBody_jsonl, if_pos hj]
  · intro hgf hcnt
    have hg : ¬ (mdGuard fs y m d = true) := by rw [hgf]; simp
    rw [main, if_neg hg]
    constructor
    · unfold entryCountFS
      rw [runBody_ideas]
      cases hex : lookupFile fs.ideas (monthStr y m ++ ".md") with
      | none =>
        rw [lookupFile_append_new _ _ _ hex]
        exact entryCount_create (monthStr y m) _ (noNl_monthStr y m)
          (noNl_entryLines env y m d _)
      | some old =>
        rw [lookupFile_update _ _ _ (by rw [hex]; rfl)]
        have hold : strContains old (isoDate y m d) = false := by
          unfold mdGuard at hgf
          rw [hex] at hgf
          exact hgf
        exact entryCount_append _ (monthStr y m) old (noNl_entryLines env y m d _)
          (noNl_isoDate y m d) hold
    · rw [runBody_jsonl]
      have hnj : jsonlHasToday fs.jsonl (isoDate y m d) = false :=
        jsonlHasToday_false_of_count_zero _ _ hcnt
      rw [if_neg (by rw [hnj]; simp)]
      unfold jsonlTodayCount at hcnt ⊢
      rw [List.filter_append, List.length_append, hcnt]
      have hd : isTodayLine (isoDate y m d)
          (some (mkRecord env y m d
            (chosenIdea R env orc (scanSlugs fs.ideas) (isoDate y m d) st))) = true := by
        simp [isTodayLine]
        rfl
      simp [hd]

/-- File state whose February 2025 log already mentions 2025-02-01. -/
def guardFS : FS :=
  ⟨[("2025-02.md", "# Idea Log — 2025-02\n\n### 2025-02-01 — old thing\n")],
   [], none, none⟩

/-- File state whose JSONL already has a record dated 2025-02-01 but whose
month markdown file does not mention the date. -/
def jsonlFS : FS := ⟨[], [some sampleRecord], none, none⟩

/-- Witness for C2 at concrete inputs: the run-twice equation, the month-file
guard, the JSONL guard, and the exactly-one-entry counts. -/
theorem C2_idempotence_witness :
    main trivGen offlineEnv nullOracles 2025 2 1 ()
        ((main trivGen offlineEnv nullOracles 2025 2 1 () emptyFS).2) =
      (0, (main trivGen offlineEnv nullOracles 2025 2 1 () emptyFS).2) ∧
    mdGuard guardFS 2025 2 1 = true ∧
    main trivGen offlineEnv nullOracles 2025 2 1 () guardFS = (0, guardFS) ∧
    jsonlHasToday jsonlFS.jsonl (isoDate 2025 2 1) = true ∧
    (main trivGen offlineEnv nullOracles 2025 2 1 () jsonlFS).2.jsonl = jsonlFS.jsonl ∧
    mdGuard emptyFS 2025 2 1 = false ∧
    jsonlTodayCount emptyFS.jsonl (isoDate 2025 2 1) = 0 ∧
    entryCountFS (main trivGen offlineEnv nullOracles 2025 2 1 () emptyFS).2 2025 2 1 = 1 ∧
    jsonlTodayCount (main trivGen offlineEnv nullOracles 2025 2 1 () emptyFS).2.jsonl
      (isoDate 2025 2 1) = 1 :=
  ⟨(C2_idempotence Unit trivGen offlineEnv nullOracles 2025 2 1 () () emptyFS).1,
   by decide,
   (C2_idempotence Unit trivGen offlineEnv nullOracles 2025 2 1 () () guardFS).2.1
     (by decide),
   by decide,
   (C2_idempotence Unit trivGen offlineEnv nullOracles 2025 2 1 () () jsonlFS).2.2.1
     (by decide),
   by decide, by decide,
   ((C2_idempotence Unit trivGen offlineEnv nullOracles 2025 2 1 () () emptyFS).2.2.2
     (by decide) (by decide)).1,
   ((C2_idempotence Unit trivGen offlineEnv nullOracles 2025 2 1 () () emptyFS).2.2.2
     (by decide) (by decide)).2⟩

/-! ### The uniqueness guarantee (C1) -/

theorem isUnique_contains_false (env : Env) (orc : Oracles) (seen : List String)
    (slug : String) (h : isUnique env orc seen slug = true) :
    seen.contains slug = false := by
  unfold isUnique at h
  by_cases hc : seen.contains slug = true
  · rw [if_pos hc] at h
    cases h
  · rw [← Bool.not_eq_true]
    exact hc

/-- Whatever candidate the retry loop accepts passed a uniqueness check: its
stripped title slugifies to the empty string (so the checked slug was the
`idea-<attempt>` fallback), or the stripped-title slug is not a historical
slug, or (for a repaired candidate) the unstripped-title slug is not. -/
theorem genLoop_some_slug {σ : Type} (R : PyRandom σ) (env : Env) (orc : Oracles)
    (seen : List String) (today : String) :
    ∀ (fuel attempt : Nat) (st : σ) (c : Idea) (st2 : σ),
      genLoop R env orc seen today fuel attempt st = (some c, st2) →
      slugify (pyStrip c.title) = "" ∨
      seen.contains (slugify (pyStrip c.title)) = false ∨
      seen.contains (slugify c.title) = false := by
  intro fuel
  induction fuel with
  | zero =>
    intro attempt st c st2 h
    simp [genLoop] at h
  | succ fuel ih =>
    intro attempt st c st2 h
    rw [genLoop] at h
    by_cases h1 : isUnique env orc seen
        (slugTry (attemptCandidate R env orc today attempt st).1 attempt) = true
    · rw [if_pos h1] at h
      obtain ⟨hc, _⟩ := Prod.mk.injEq .. ▸ h
      obtain rfl := Option.some.inj (by exact hc)
      have hcont := isUnique_contains_false env orc seen _ h1
      by_cases hs : slugify (pyStrip
          (attemptCandidate R env orc today attempt st).1.title) = ""
      · exact Or.inl hs
      · refine Or.inr (Or.inl ?_)
        unfold slugTry at hcont
        rw [if_neg hs] at hcont
        exact hcont
    · rw [if_neg h1] at h
      by_cases h2 : isUnique env orc seen
          (slugify (repairTitle (attemptCandidate R env orc today attempt st).1
            attempt).title) = true
      · rw [if_pos h2] at h
        obtain ⟨hc, _⟩ := Prod.mk.injEq .. ▸ h
        obtain rfl := Option.some.inj (by exact hc)
        exact Or.inr (Or.inr (isUnique_contains_false env orc seen _ h2))
      · rw [if_neg h2] at h
        exact ih (attempt + 1) _ c st2 h

/-- C1 (amended): when the retry loop (not the forced-suffix path) accepts a
candidate whose title carries no surrounding whitespace, slugifies to a
nonempty slug, and whose slug is unchanged by the 8-word clamp, the persisted
record's slug is not in the historical slug set scanned from the month logs.
Without those provisos the persisted slug can collide (see the
counterexample: the uniqueness check ran on the unclamped title's slug), and
the forced-suffix path appends its random suffix without any re-check. -/
theorem C1_uniqueness_amended (σ : Type) (R : PyRandom σ) (env : Env)
    (orc : Oracles) (y m d : Nat) (st : σ) (fs : FS) (c : Idea) (st2 : σ)
    (r : Record)
    (hg : mdGuard fs y m d = false)
    (hloop : genLoop R env orc (scanSlugs fs.ideas) (isoDate y m d) 6 0 st =
      (some c, st2))
    (hstrip : pyStrip c.title = c.title)
    (hne : slugify c.title ≠ "")
    (hclamp : slugify (limit_words c.title 8) = slugify c.title)
    (hl : (main R env orc y m d st fs).2.latest = some r) :
    (scanSlugs fs.ideas).contains r.slug = false := by
  rw [main, if_neg (by rw [hg]; simp)] at hl
  rw [runBody_latest] at hl
  have hidea : chosenIdea R env orc (scanSlugs fs.ideas) (isoDate y m d) st = c := by
    unfold chosenIdea
    rw [hloop]
  rw [hidea] at hl
  obtain rfl := Option.some.inj hl
  simp only [mkRecord]
  have htitle : normTitle c = limit_words c.title 8 := by
    rw [normTitle, hstrip]
  have hslug : normSlug c = slugify c.title := by
    unfold normSlug
    rw [htitle, hclamp]
    simp only [if_neg hne]
  rw [hslug]
  rcases genLoop_some_slug R env orc (scanSlugs fs.ideas) (isoDate y m d)
      6 0 st c st2 hloop with h1 | h2 | h3
  · rw [hstrip] at h1
    exact absurd h1 hne
  · rw [hstrip] at h2
    exact h2
  · exact h3

/-- Environment for the C1 counterexample: only the OpenAI key is set. -/
def cexEnv : Env := ⟨none, none, none, some "k", none, none, none, none⟩

/-- Oracles for the C1 counterexample: the remote provider returns a
9-word title whose 8-word clamp collides with the historical slug. -/
def cexOrc : Oracles :=
  ⟨fun _ => none,
   fun _ => some ⟨"alpha beta gamma delta epsilon zeta eta theta iota", "", []⟩,
   fun _ => false⟩

/-- Historical state for the C1 counterexample: one logged idea whose slug is
the 8-word clamp of the incoming candidate's title. -/
def cexFS : FS :=
  ⟨[("2025-01.md", "### 2025-01-02 — alpha beta gamma delta epsilon zeta eta theta\n")],
   [], none, none⟩

/-- The record the counterexample run persists. -/
def cexRecord : Record :=
  { date := "2025-02-01",
    concept := "alpha beta gamma delta epsilon zeta eta theta",
    summary := "", tags := [], theme := "automation",
    slug := "alpha-beta-gamma-delta-epsilon-zeta-eta-theta",
    repo_name := "alpha-beta-gamma-delta-epsilon-zeta-eta-theta-2025-02-01",
    source := "openai" }

/-- C1 (counterexample): the loop accepts the candidate (not the forced
path: the loop's result is `some`), the uniqueness check having been run on
the unclamped title's slug, yet the persisted record's slug — re-derived
after the 8-word clamp — is in the historical slug set. -/
theorem C1_uniqueness_counterexample :
    (genLoop trivGen cexEnv cexOrc (scanSlugs cexFS.ideas) (isoDate 2025 2 1)
        6 0 ()).1.isSome = true ∧
    (main trivGen cexEnv cexOrc 2025 2 1 () cexFS).2.latest = some cexRecord ∧
    (scanSlugs cexFS.ideas).contains cexRecord.slug = true := by
  refine ⟨by decide, by decide, by decide⟩

/-- Historical state for the C1 witness: one unrelated logged idea. -/
def wFS : FS := ⟨[("2025-01.md", "### 2025-01-05 — old thing\n")], [], none, none⟩

/-- The candidate the witness run accepts (offline, attempt 0). -/
def wIdea : Idea :=
  ⟨"quantum notes cli",
   "A cli that can generate and manage github issues with a focus on quantum notes.",
   ["cli", "notes", "quantum"]⟩

/-- The record the witness run persists. -/
def wRecord : Record :=
  { date := "2025-02-01", concept := "quantum notes cli",
    summary := "A cli that can generate and manage github issues with a focus on quantum notes.",
    tags := ["cli", "notes", "quantum"], theme := "automation",
    slug := "quantum-notes-cli", repo_name := "quantum-notes-cli-2025-02-01",
    source := "offline" }

/-- Witness for C1 (amended) on a concrete offline run. -/
theorem C1_uniqueness_amended_witness :
    mdGuard wFS 2025 2 1 = false ∧
    genLoop trivGen offlineEnv nullOracles (scanSlugs wFS.ideas) (isoDate 2025 2 1)
      6 0 () = (some wIdea, ()) ∧
    pyStrip wIdea.title = wIdea.title ∧
    slugify wIdea.title ≠ "" ∧
    slugify (limit_words wIdea.title 8) = slugify wIdea.title ∧
    (main trivGen offlineEnv nullOracles 2025 2 1 () wFS).2.latest = some wRecord ∧
    (scanSlugs wFS.ideas).contains wRecord.slug = false :=
  ⟨by decide, by decide, by decide, by decide, by decide, by decide,
   C1_uniqueness_amended Unit trivGen offlineEnv nullOracles 2025 2 1 () wFS
     wIdea () wRecord (by decide) (by decide) (by decide) (by decide) (by decide)
     (by decide)⟩

end Heartbeat
